import Mathlib

/-!
Shallow embedding of the ClaudeScript codec of TheArchHive
(src/scripts/ClaudeScript.py).  Python strings are modelled as lists of
characters; Python str.replace, str.split, str.startswith and
insertion-ordered dicts are modelled by the list functions below, each
mirroring the exact behaviour of the library call the source uses.
-/

abbrev LC := List Char

/-- Python str.replace with a one-character pattern: every occurrence of the
character old is replaced by new, scanning left to right. -/
def replaceC (old : Char) (new : LC) : LC → LC
  | [] => []
  | c :: rest => if c = old then new ++ replaceC old new rest else c :: replaceC old new rest

/-- Python str.replace with a two-character pattern and a one-character
replacement: leftmost occurrence first, non-overlapping, and scanning resumes
after the inserted replacement. -/
def replaceCC (o1 o2 new : Char) : LC → LC
  | [] => []
  | [a] => [a]
  | a :: b :: rest =>
      if a = o1 ∧ b = o2 then new :: replaceCC o1 o2 new rest
      else a :: replaceCC o1 o2 new (b :: rest)

/-- Python s.split(sep, 1) viewed as an optional split at the first
occurrence of sep: none when sep does not occur. -/
def splitFirst (sep : Char) : LC → Option (LC × LC)
  | [] => none
  | c :: rest =>
      if c = sep then some ([], rest)
      else
        match splitFirst sep rest with
        | none => none
        | some (a, b) => some (c :: a, b)

/-- Python s.split(sep) with no limit: every occurrence of sep starts a new
piece (the result is always nonempty, and empty input gives one empty
piece). -/
def splitAll (sep : Char) : LC → List LC
  | [] => [[]]
  | c :: rest =>
      if c = sep then [] :: splitAll sep rest
      else
        match splitAll sep rest with
        | [] => [[c]]
        | p :: ps => (c :: p) :: ps

/-- Python s.split(sep, n). -/
def splitAtMost (sep : Char) : Nat → LC → List LC
  | 0, l => [l]
  | n + 1, l =>
      match splitFirst sep l with
      | none => [l]
      | some (a, b) => a :: splitAtMost sep n b

/-- Python dict assignment d[k] = v on an insertion-ordered association
list: an existing key keeps its position and gets the new value, a new key is
appended at the end. -/
def dictInsert {α : Type} (k : LC) (v : α) : List (LC × α) → List (LC × α)
  | [] => [(k, v)]
  | (k0, v0) :: rest => if k0 = k then (k0, v) :: rest else (k0, v0) :: dictInsert k v rest

/-- Python d.get(k) on an insertion-ordered association list. -/
def dictGet {α : Type} (k : LC) (d : List (LC × α)) : Option α :=
  (d.find? (fun e => decide (e.1 = k))).map (fun e => e.2)

/-- Python == on two dicts with string keys and string values:
order-insensitive, same key set with equal values. -/
def dictEq (d1 d2 : List (LC × LC)) : Bool :=
  (d1.all fun e => decide (dictGet e.1 d2 = some e.2)) &&
  (d2.all fun e => decide (dictGet e.1 d1 = some e.2))

/-! ## The prefix registry and the line codec -/

/-- The ClaudeScript PREFIX_MAP table, in its Python insertion order. -/
def PREFIX_MAP : List (LC × String) :=
  [("v:".data, "version"), ("s:".data, "system"), ("p:".data, "package"),
   ("k:".data, "kernel"), ("c:".data, "cpu"), ("m:".data, "memory"),
   ("d:".data, "disk"), ("g:".data, "gpu"), ("f:".data, "file"),
   ("cf:".data, "config"), ("pk:".data, "package_config"), ("sv:".data, "service"),
   ("i:".data, "input"), ("o:".data, "output"), ("n:".data, "network"),
   ("cmd:".data, "command"), ("r:".data, "runtime"), ("b:".data, "build"),
   ("t:".data, "tweak"), ("e:".data, "error"), ("a:".data, "alias"),
   ("h:".data, "hook"), ("scope:".data, "scope")]

/-- The compiled-in ClaudeScript specification version. -/
def SPEC_VERSION : LC := "1.0.0".data

/-- ClaudeScript._clean_for_encoding: escape newline, then carriage return,
then colon, in that order. -/
def clean_for_encoding (d : LC) : LC :=
  replaceC ':' ['\\', ':'] (replaceC '\r' ['\\', 'r'] (replaceC '\n' ['\\', 'n'] d))

/-- ClaudeScript._parse_for_decoding: unescape in the same (not inverse)
order: backslash-n, then backslash-r, then backslash-colon. -/
def parse_for_decoding (d : LC) : LC :=
  replaceCC '\\' ':' ':' (replaceCC '\\' 'r' '\r' (replaceCC '\\' 'n' '\n' d))

/-- The reverse prefix map built in __init__ (a Python dict comprehension, so
the last entry wins for a repeated record type). -/
def reverseGet (reg : List (LC × String)) (t : String) : Option LC :=
  (reg.reverse.find? (fun e => decide (e.2 = t))).map (fun e => e.1)

/-- ClaudeScript.encode over a given registry; none models the ValueError
raised for an unknown record type. -/
def encode (reg : List (LC × String)) (t : String) (d : LC) : Option LC :=
  match reverseGet reg t with
  | none => none
  | some pre => some (pre ++ clean_for_encoding d)

/-- ClaudeScript.decode over a given registry: the registry is scanned in
insertion order and the first entry whose tag starts the line wins; none
models the ValueError raised when no tag matches. -/
def decode (reg : List (LC × String)) (line : LC) : Option (String × LC) :=
  match reg.find? (fun e => e.1.isPrefixOf line) with
  | none => none
  | some e => some (e.2, parse_for_decoding (line.drop e.1.length))

/-! ## Per-record payload decoders -/

structure Package where
  name : LC
  version : LC
deriving DecidableEq

structure ConfigFile where
  path : LC
  settings : List (LC × LC)
deriving DecidableEq

structure PackageConfig where
  package : LC
  config_type : LC
  path : LC
  content : LC
deriving DecidableEq

structure Tweak where
  component : LC
  tweak : LC
deriving DecidableEq

structure RuntimeConfig where
  application : LC
  setting : LC
deriving DecidableEq

structure FileRecord where
  path : LC
  hash : Option LC
deriving DecidableEq

/-- The split performed by the regular expression (.+)-([^-]+)$ in
decode_package: the candidate split is at the final dash (everything after
the last dash is the second group). -/
def lastDashSplit : LC → Option (LC × LC)
  | [] => none
  | c :: rest =>
      match lastDashSplit rest with
      | some (n, v) => some (c :: n, v)
      | none => if c = '-' then some ([], rest) else none

/-- ClaudeScript.decode_package on an already-decoded payload.  re.match of
(.+)-([^-]+)$ succeeds exactly when the text before the last dash is nonempty
and newline-free (a dot does not match a newline) and the text after the last
dash is nonempty; any earlier dash leaves a dash inside the second group, so
only the last dash can produce a match.  On failure the fallback is
name = payload, version = latest. -/
def decode_package_rec (d : LC) : Package :=
  match lastDashSplit d with
  | some (n, v) =>
      if n ≠ [] ∧ v ≠ [] ∧ '\n' ∉ n then { name := n, version := v }
      else { name := d, version := "latest".data }
  | none => { name := d, version := "latest".data }

/-- The body of the settings loop of decode_config_file: an item with an
equals sign is split once on it and assigned into the dict, any other item is
ignored. -/
def settingsStep (acc : List (LC × LC)) (item : LC) : List (LC × LC) :=
  match splitFirst '=' item with
  | none => acc
  | some (k, v) => dictInsert k v acc

/-- The settings dict decode_config_file builds from the comma-separated
key=value text. -/
def settingsOfKV (kv : LC) : List (LC × LC) :=
  (splitAll ',' kv).foldl settingsStep []

/-- ClaudeScript.decode_config_file on an already-decoded payload: split once
on colon into path and settings text, then split the settings text on commas
and keep only the items containing an equals sign. -/
def decode_config_rec (d : LC) : ConfigFile :=
  match splitFirst ':' d with
  | none => { path := d, settings := [] }
  | some (fp, kv) => { path := fp, settings := settingsOfKV kv }

/-- ClaudeScript.decode_package_config on an already-decoded payload; none
models the ValueError raised when fewer than four colon-separated fields are
present. -/
def decode_package_config_rec (d : LC) : Option PackageConfig :=
  match splitAtMost ':' 3 d with
  | [a, b, c, e] => some { package := a, config_type := b, path := c, content := e }
  | _ => none

/-- ClaudeScript.decode_tweak on an already-decoded payload. -/
def decode_tweak_rec (d : LC) : Tweak :=
  match splitFirst ':' d with
  | none => { component := d, tweak := [] }
  | some (a, b) => { component := a, tweak := b }

/-- ClaudeScript.decode_runtime_config on an already-decoded payload. -/
def decode_runtime_rec (d : LC) : RuntimeConfig :=
  match splitFirst ':' d with
  | none => { application := d, setting := [] }
  | some (a, b) => { application := a, setting := b }

/-! ## The snapshot model -/

structure Snapshot where
  system_type : LC
  packages : List Package
  config_files : List ConfigFile
  package_configs : List PackageConfig
  tweaks : List Tweak
  runtime_configs : List RuntimeConfig
  version : LC
  scope : Option LC
  kernel : Option LC
  cpu : Option LC
  memory : Option LC
  gpu : Option LC
  disk : Option LC
  files : Option (List FileRecord)
deriving DecidableEq

/-- The snapshot dictionary decode_snapshot starts from. -/
def emptySnapshot : Snapshot :=
  { system_type := "archlinux".data, packages := [], config_files := [],
    package_configs := [], tweaks := [], runtime_configs := [],
    version := SPEC_VERSION, scope := none, kernel := none, cpu := none,
    memory := none, gpu := none, disk := none, files := none }

/-- One iteration of the decode_snapshot loop.  A line that fails to decode,
or whose per-type parse raises (a package_config record with fewer than four
fields), leaves the snapshot unchanged: the ValueError is caught, reported as
a warning, and the loop continues. -/
def decodeSnapshotStep (s : Snapshot) (line : LC) : Snapshot :=
  match decode PREFIX_MAP line with
  | none => s
  | some (t, d) =>
    if t = "version" then { s with version := d }
    else if t = "system" then
      if "sys:".data.isPrefixOf d then { s with system_type := d.drop 4 } else s
    else if t = "scope" then { s with scope := some d }
    else if t = "package" then
      { s with packages := s.packages ++ [decode_package_rec d] }
    else if t = "kernel" then { s with kernel := some d }
    else if t = "cpu" then { s with cpu := some d }
    else if t = "memory" then { s with memory := some d }
    else if t = "gpu" then { s with gpu := some d }
    else if t = "disk" then { s with disk := some d }
    else if t = "config" then { s with config_files := s.config_files ++ [decode_config_rec d] }
    else if t = "package_config" then
      match decode_package_config_rec d with
      | some pc => { s with package_configs := s.package_configs ++ [pc] }
      | none => s
    else if t = "tweak" then { s with tweaks := s.tweaks ++ [decode_tweak_rec d] }
    else if t = "runtime" then
      { s with runtime_configs := s.runtime_configs ++ [decode_runtime_rec d] }
    else if t = "file" then
      match splitFirst ':' d with
      | none => { s with files := some (s.files.getD [] ++ [{ path := d, hash := none }]) }
      | some (fp, fh) => { s with files := some (s.files.getD [] ++ [{ path := fp, hash := some fh }]) }
    else s

/-- ClaudeScript.decode_snapshot for a default-constructed codec (registry
PREFIX_MAP, spec version 1.0.0). -/
def decode_snapshot (lines : List LC) : Snapshot :=
  lines.foldl decodeSnapshotStep emptySnapshot

/-- The comma-joined key=value text built by encode_config_file. -/
def joinKV (st : List (LC × LC)) : LC :=
  List.intercalate [','] (st.map (fun e => e.1 ++ ['='] ++ e.2))

/-- The list of lines one encode call contributes inside encode_snapshot (the
record types used there are all registered, so the ValueError branch of
encode is unreachable and the none case is empty). -/
def encLines (t : String) (d : LC) : List LC :=
  match encode PREFIX_MAP t d with
  | none => []
  | some l => [l]

/-- The lines contributed by one optional singleton fact: nothing when the
key is absent, one encode call when present. -/
def optLines (t : String) : Option LC → List LC
  | none => []
  | some x => encLines t x

/-- ClaudeScript.encode_snapshot for a default-constructed codec, with the
default include_version=True: the version record always carries the codec's
own compiled-in spec version, never the version of the snapshot being
encoded.  Packages with an empty name, configs with an empty path,
package-configs missing a package or path, and tweaks or runtime configs
with an empty field are skipped; decoded file records have no branch at all
and are dropped. -/
def encode_snapshot (s : Snapshot) : List LC :=
  encLines "version" SPEC_VERSION
  ++ encLines "system" ("sys:".data ++ s.system_type)
  ++ optLines "scope" s.scope
  ++ optLines "kernel" s.kernel
  ++ optLines "cpu" s.cpu
  ++ optLines "memory" s.memory
  ++ optLines "gpu" s.gpu
  ++ optLines "disk" s.disk
  ++ (s.packages.map (fun p =>
        if p.name ≠ [] then encLines "package" (p.name ++ ['-'] ++ p.version) else [])).flatten
  ++ (s.config_files.map (fun c =>
        if c.path ≠ [] then encLines "config" (c.path ++ [':'] ++ joinKV c.settings) else [])).flatten
  ++ (s.package_configs.map (fun pc =>
        if pc.package ≠ [] ∧ pc.path ≠ [] then
          encLines "package_config"
            (pc.package ++ [':'] ++ pc.config_type ++ [':'] ++ pc.path ++ [':'] ++ pc.content)
        else [])).flatten
  ++ (s.tweaks.map (fun tw =>
        if tw.component ≠ [] ∧ tw.tweak ≠ [] then
          encLines "tweak" (tw.component ++ [':'] ++ tw.tweak)
        else [])).flatten
  ++ (s.runtime_configs.map (fun rc =>
        if rc.application ≠ [] ∧ rc.setting ≠ [] then
          encLines "runtime" (rc.application ++ [':'] ++ rc.setting)
        else [])).flatten

/-! ## Reconciliation (apply_snapshot) -/

structure ApplyResult where
  changes : List LC
  errors : List LC
  warnings : List LC
deriving DecidableEq

/-- ClaudeScript.apply_snapshot on an already-decoded snapshot (reading and
decoding the snapshot file is the caller's part).  The collaborator inputs
are the _is_package_installed membership check and the os.path.exists check
on a config path; dry is the dry_run flag.  The non-dry branches of the
source only append simulation messages, so their except arms are dead and
errors can only stay empty. -/
def apply_snapshot (s : Snapshot) (installed : LC → Bool) (pathE : LC → Bool)
    (dry : Bool) : ApplyResult :=
  let r0 : ApplyResult := { changes := [], errors := [], warnings := [] }
  let r1 := s.packages.foldl (fun r p =>
    if p.name = [] then r
    else if ! installed p.name then
      if dry then
        { r with changes := r.changes ++ ["Would install package: ".data ++ p.name] }
      else
        { r with changes := r.changes ++
            ["Installing package: ".data ++ p.name, "Installed ".data ++ p.name] }
    else
      { r with warnings := r.warnings ++ ["Package already installed: ".data ++ p.name] }) r0
  let r2 := s.config_files.foldl (fun r c =>
    if c.path = [] then r
    else if pathE c.path then
      if dry then
        { r with changes := r.changes ++ ["Would update configuration: ".data ++ c.path] }
      else
        { r with changes := r.changes ++
            ["Updating configuration: ".data ++ c.path, "Updated ".data ++ c.path] }
    else
      if dry then
        { r with changes := r.changes ++ ["Would create configuration: ".data ++ c.path] }
      else
        { r with changes := r.changes ++
            ["Creating configuration: ".data ++ c.path, "Created ".data ++ c.path] }) r1
  let r3 := s.package_configs.foldl (fun r pc =>
    if pc.package = [] ∨ pc.path = [] then r
    else if ! installed pc.package then
      { r with warnings := r.warnings ++
          ["Package ".data ++ pc.package ++ " not installed, skipping its configuration".data] }
    else if dry then
      { r with changes := r.changes ++
          ["Would configure ".data ++ pc.package ++ " at ".data ++ pc.path] }
    else
      { r with changes := r.changes ++
          ["Configuring ".data ++ pc.package ++ " at ".data ++ pc.path,
           "Configured ".data ++ pc.package] }) r2
  let r4 := s.tweaks.foldl (fun r tw =>
    if tw.component = [] ∨ tw.tweak = [] then r
    else if dry then
      { r with changes := r.changes ++
          ["Would apply tweak to ".data ++ tw.component ++ ": ".data ++ tw.tweak] }
    else
      { r with changes := r.changes ++
          ["Applying tweak to ".data ++ tw.component ++ ": ".data ++ tw.tweak,
           "Applied tweak to ".data ++ tw.component] }) r3
  r4

/-! ## Diffing (compare_snapshots) -/

structure DiffResult where
  added_packages : Finset LC
  removed_packages : Finset LC
  added_configs : Finset LC
  removed_configs : Finset LC
  changed_configs : Finset LC

/-- The set comprehension over package names in compare_snapshots. -/
def pkgNameSet (s : Snapshot) : Finset LC := (s.packages.map Package.name).toFinset

/-- The set comprehension over config paths in compare_snapshots. -/
def configPathSet (s : Snapshot) : Finset LC := (s.config_files.map ConfigFile.path).toFinset

/-- The per-path settings dict comprehension in compare_snapshots, restricted
to paths common to both snapshots: an insertion-ordered dict keyed by path,
so a later occurrence of a path overwrites the settings of an earlier one. -/
def configDict (common : Finset LC) (cs : List ConfigFile) : List (LC × List (LC × LC)) :=
  cs.foldl (fun acc c => if c.path ∈ common then dictInsert c.path c.settings acc else acc) []

/-- The Python inequality config1_dict.get(path) != config2_dict.get(path)
between two optional settings dicts. -/
def settingsNe (a b : Option (List (LC × LC))) : Bool :=
  match a, b with
  | some x, some y => ! dictEq x y
  | none, none => false
  | _, _ => true

/-- ClaudeScript.compare_snapshots on two already-decoded snapshots (reading
and decoding the two files is the caller's part).  The source materializes
each set as a list in arbitrary set-iteration order; the sets themselves are
modelled.  The derived count summary is omitted: it carries no information
beyond the five sets. -/
def compare_snapshots (s1 s2 : Snapshot) : DiffResult :=
  let p1 := pkgNameSet s1
  let p2 := pkgNameSet s2
  let c1 := configPathSet s1
  let c2 := configPathSet s2
  let common := c1 ∩ c2
  let d1 := configDict common s1.config_files
  let d2 := configDict common s2.config_files
  { added_packages := p2 \ p1,
    removed_packages := p1 \ p2,
    added_configs := c2 \ c1,
    removed_configs := c1 \ c2,
    changed_configs := common.filter (fun p => settingsNe (dictGet p d1) (dictGet p d2) = true) }

/-- The settings of the last occurrence of a path in a snapshot's config
list. -/
def lastConfigSettings (s : Snapshot) (p : LC) : Option (List (LC × LC)) :=
  (s.config_files.reverse.find? (fun c => decide (c.path = p))).map ConfigFile.settings

/-! ## Registry construction (ClaudeScript.__init__) -/

/-- The decoded content of an optional specification file: json keys version
and prefixes, either possibly absent. -/
structure SpecFile where
  version : Option LC
  prefixes : Option (List (LC × String))

structure CSState where
  spec_version : LC
  prefix_map : List (LC × String)

/-- ClaudeScript.__init__: with no spec file the defaults are used; with one,
spec_data.get supplies the stored version and prefix table, defaulting per
key.  The construction is total: no validation of the prefix table is
performed. -/
def mkClaudeScript : Option SpecFile → CSState
  | none => { spec_version := SPEC_VERSION, prefix_map := PREFIX_MAP }
  | some sp =>
      { spec_version := sp.version.getD SPEC_VERSION,
        prefix_map := sp.prefixes.getD PREFIX_MAP }

/-- No registered tag is a proper string prefix of another registered tag. -/
def noOverlap (reg : List (LC × String)) : Bool :=
  reg.all fun e1 => reg.all fun e2 =>
    decide (e1.1 = e2.1) || (! e1.1.isPrefixOf e2.1 && ! e2.1.isPrefixOf e1.1)

/-- The RecordType to tag mapping is a bijection: no repeated tag, no
repeated record type. -/
def regBijective (reg : List (LC × String)) : Bool :=
  decide ((reg.map Prod.fst).Nodup ∧ (reg.map Prod.snd).Nodup)

/-- A registry violating tag prefix-freedom: the first tag is a proper
string prefix of the second. -/
def overlapReg : List (LC × String) := [("a:".data, "t1"), ("a:b".data, "t2")]

/-- A spec file carrying the overlapping registry. -/
def overlapSpecFile : SpecFile := { version := none, prefixes := some overlapReg }

/-! ## Well-formedness classes used for the round-trip theorems -/

/-- Free of backslash, newline and carriage return. -/
def strOk (x : LC) : Prop := '\\' ∉ x ∧ '\n' ∉ x ∧ '\r' ∉ x

def optOk : Option LC → Prop
  | none => True
  | some x => strOk x

def pkgWF (p : Package) : Prop :=
  p.name ≠ [] ∧ p.version ≠ [] ∧ '-' ∉ p.version ∧ strOk p.name ∧ strOk p.version

def settingWF (e : LC × LC) : Prop :=
  strOk e.1 ∧ strOk e.2 ∧ ',' ∉ e.1 ∧ ',' ∉ e.2 ∧ '=' ∉ e.1

def cfgWF (c : ConfigFile) : Prop :=
  c.path ≠ [] ∧ ':' ∉ c.path ∧ strOk c.path ∧ (∀ e ∈ c.settings, settingWF e) ∧
  (c.settings.map Prod.fst).Nodup

def pkcWF (pc : PackageConfig) : Prop :=
  pc.package ≠ [] ∧ pc.path ≠ [] ∧ ':' ∉ pc.package ∧ ':' ∉ pc.config_type ∧
  ':' ∉ pc.path ∧ strOk pc.package ∧ strOk pc.config_type ∧ strOk pc.path ∧
  strOk pc.content

def twWF (tw : Tweak) : Prop :=
  tw.component ≠ [] ∧ tw.tweak ≠ [] ∧ ':' ∉ tw.component ∧
  strOk tw.component ∧ strOk tw.tweak

def rtWF (rc : RuntimeConfig) : Prop :=
  rc.application ≠ [] ∧ rc.setting ≠ [] ∧ ':' ∉ rc.application ∧
  strOk rc.application ∧ strOk rc.setting

/-- The class of decoded snapshots that encode_snapshot reproduces exactly:
the version is the codec's own, no file records were decoded, every string is
escape-clean, and the skip conditions of the encoder reject nothing. -/
def snapWF (s : Snapshot) : Prop :=
  s.version = SPEC_VERSION ∧ s.files = none ∧ strOk s.system_type ∧
  optOk s.scope ∧ optOk s.kernel ∧ optOk s.cpu ∧ optOk s.memory ∧
  optOk s.gpu ∧ optOk s.disk ∧
  (∀ p ∈ s.packages, pkgWF p) ∧ (∀ c ∈ s.config_files, cfgWF c) ∧
  (∀ pc ∈ s.package_configs, pkcWF pc) ∧ (∀ tw ∈ s.tweaks, twWF tw) ∧
  (∀ rc ∈ s.runtime_configs, rtWF rc)

/-- Structural conditions on one decoded record under which encode_snapshot
loses nothing: a version record must carry the codec's own version, file
records are not re-encodable at all, and the records subject to encoder skip
conditions must have the relevant fields nonempty. -/
def goodPayload (t : String) (d : LC) : Bool :=
  if t = "version" then decide (d = SPEC_VERSION)
  else if t = "file" then false
  else if t = "package" then decide (d ≠ [])
  else if t = "config" then
    match splitFirst ':' d with
    | none => decide (d ≠ [])
    | some (fp, _) => decide (fp ≠ [])
  else if t = "tweak" then
    match splitFirst ':' d with
    | none => false
    | some (a, b) => decide (a ≠ []) && decide (b ≠ [])
  else if t = "runtime" then
    match splitFirst ':' d with
    | none => false
    | some (a, b) => decide (a ≠ []) && decide (b ≠ [])
  else if t = "package_config" then
    match decode_package_config_rec d with
    | none => true
    | some pc => decide (pc.package ≠ []) && decide (pc.path ≠ [])
  else true

/-- A well-formed snapshot line: free of literal backslash, newline and
carriage-return characters, and, if it decodes at all, structurally
re-encodable per goodPayload.  Lines that decode to record types without a
decode_snapshot branch, and lines that fail to decode, are allowed: they
contribute nothing to the decoded snapshot. -/
def goodLine (l : LC) : Bool :=
  decide ('\\' ∉ l) && decide ('\n' ∉ l) && decide ('\r' ∉ l) &&
  (match decode PREFIX_MAP l with
   | none => true
   | some (t, d) => goodPayload t d)

/-- A line decode_snapshot actually folds in: some tag matches, and for a
package_config record the payload has at least four colon-separated
fields. -/
def lineOk (l : LC) : Bool :=
  match decode PREFIX_MAP l with
  | none => false
  | some (t, d) =>
      if t = "package_config" then (decode_package_config_rec d).isSome else true

/-! ## Concrete inputs used by the claims -/

/-- The snapshot of the C2 scenario: packages firefox 120.0 and vim 9.1, and
one config file /etc/fstab with settings defaults=relatime,noatime. -/
def c2Snapshot : Snapshot :=
  { emptySnapshot with
    packages := [{ name := "firefox".data, version := "120.0".data },
                 { name := "vim".data, version := "9.1".data }],
    config_files := [{ path := "/etc/fstab".data,
                       settings := [("defaults".data, "relatime,noatime".data)] }] }

/-- A snapshot file whose version record differs from the codec's compiled-in
spec version. -/
def c3BadLines : List LC := ["v:2.0.0".data]

/-- A representative well-formed snapshot file exercising every re-encodable
record family. -/
def c3GoodLines : List LC :=
  ["v:1.0.0".data, "s:sysarch".data, "scope:full".data, "k:6.1-arch1".data,
   "c:ryzen".data, "m:32000MB".data, "g:radeon".data, "d:512G".data,
   "p:firefox-120.0".data, "cf:/etc/fstab:defaults=rw".data,
   "pk:vim:c:/rc:set nu".data, "t:sysctl:vm.swappiness=10".data,
   "r:nvim:number".data, "e:ignored".data, "zz:unknown".data]

/-! ## Lemmas about the escaping round trip -/

theorem replaceC_append (old : Char) (new : LC) (x y : LC) :
    replaceC old new (x ++ y) = replaceC old new x ++ replaceC old new y := by
  induction x with
  | nil => rfl
  | cons c rest ih => by_cases h : c = old <;> simp [replaceC, h, ih]

theorem replaceC_id (old : Char) (new : LC) (s : LC) (h : old ∉ s) :
    replaceC old new s = s := by
  induction s with
  | nil => rfl
  | cons c rest ih =>
      simp only [List.mem_cons, not_or] at h
      have hc : ¬ c = old := fun e => h.1 e.symm
      simp [replaceC, hc, ih h.2]

/-- The per-character escape table that _clean_for_encoding amounts to. -/
def escC (c : Char) : LC :=
  if c = '\n' then ['\\', 'n']
  else if c = '\r' then ['\\', 'r']
  else if c = ':' then ['\\', ':']
  else [c]

theorem clean_cons (c : Char) (s : LC) :
    clean_for_encoding (c :: s) = escC c ++ clean_for_encoding s := by
  by_cases h1 : c = '\n'
  · subst h1; simp [clean_for_encoding, escC, replaceC, replaceC_append]
  · by_cases h2 : c = '\r'
    · subst h2; simp [clean_for_encoding, escC, replaceC, replaceC_append]
    · by_cases h3 : c = ':'
      · subst h3; simp [clean_for_encoding, escC, replaceC, replaceC_append]
      · simp [clean_for_encoding, escC, replaceC, replaceC_append, h1, h2, h3]

theorem clean_id (s : LC) (h1 : '\n' ∉ s) (h2 : '\r' ∉ s) (h3 : ':' ∉ s) :
    clean_for_encoding s = s := by
  unfold clean_for_encoding
  rw [replaceC_id _ _ _ h1, replaceC_id _ _ _ h2, replaceC_id _ _ _ h3]

theorem replaceCC_cons_ne (o1 o2 n a : Char) (t : LC) (h : a ≠ o1) :
    replaceCC o1 o2 n (a :: t) = a :: replaceCC o1 o2 n t := by
  cases t with
  | nil => rfl
  | cons b rest => simp [replaceCC, h]

theorem replaceCC_cons_ne2 (o1 o2 n b : Char) (t : LC) (h : b ≠ o2) :
    replaceCC o1 o2 n (o1 :: b :: t) = o1 :: replaceCC o1 o2 n (b :: t) := by
  simp [replaceCC, h]

theorem replaceCC_hit (o1 o2 n : Char) (t : LC) :
    replaceCC o1 o2 n (o1 :: o2 :: t) = n :: replaceCC o1 o2 n t := by
  simp [replaceCC]

theorem replaceCC_id (o1 o2 n : Char) (s : LC) (h : o1 ∉ s) :
    replaceCC o1 o2 n s = s := by
  induction s with
  | nil => rfl
  | cons a t ih =>
      simp only [List.mem_cons, not_or] at h
      rw [replaceCC_cons_ne _ _ _ _ _ (fun e => h.1 e.symm), ih h.2]

theorem parse_id (s : LC) (h : '\\' ∉ s) : parse_for_decoding s = s := by
  unfold parse_for_decoding
  rw [replaceCC_id _ _ _ _ h, replaceCC_id _ _ _ _ h, replaceCC_id _ _ _ _ h]

theorem parse_esc (c : Char) (h : c ≠ '\\') (X : LC) :
    parse_for_decoding (escC c ++ X) = c :: parse_for_decoding X := by
  unfold parse_for_decoding
  by_cases h1 : c = '\n'
  · subst h1
    rw [show escC '\n' ++ X = '\\' :: 'n' :: X from rfl]
    rw [replaceCC_hit]
    rw [replaceCC_cons_ne _ _ _ _ _ (by decide : ('\n' : Char) ≠ '\\')]
    rw [replaceCC_cons_ne _ _ _ _ _ (by decide : ('\n' : Char) ≠ '\\')]
  · by_cases h2 : c = '\r'
    · subst h2
      rw [show escC '\r' ++ X = '\\' :: 'r' :: X from rfl]
      rw [replaceCC_cons_ne2 _ _ _ _ _ (by decide : ('r' : Char) ≠ 'n')]
      rw [replaceCC_cons_ne _ _ _ _ _ (by decide : ('r' : Char) ≠ '\\')]
      rw [replaceCC_hit]
      rw [replaceCC_cons_ne _ _ _ _ _ (by decide : ('\r' : Char) ≠ '\\')]
    · by_cases h3 : c = ':'
      · subst h3
        rw [show escC ':' ++ X = '\\' :: ':' :: X from rfl]
        rw [replaceCC_cons_ne2 _ _ _ _ _ (by decide : (':' : Char) ≠ 'n')]
        rw [replaceCC_cons_ne _ _ _ _ _ (by decide : (':' : Char) ≠ '\\')]
        rw [replaceCC_cons_ne2 _ _ _ _ _ (by decide : (':' : Char) ≠ 'r')]
        rw [replaceCC_cons_ne _ _ _ _ _ (by decide : (':' : Char) ≠ '\\')]
        rw [replaceCC_hit]
      · rw [show escC c ++ X = c :: X by simp [escC, h1, h2, h3]]
        rw [replaceCC_cons_ne _ _ _ _ _ h]
        rw [replaceCC_cons_ne _ _ _ _ _ h]
        rw [replaceCC_cons_ne _ _ _ _ _ h]

/-- The escaping round trip: any payload free of literal backslashes survives
clean_for_encoding followed by parse_for_decoding unchanged. -/
theorem parse_clean (s : LC) (h : '\\' ∉ s) :
    parse_for_decoding (clean_for_encoding s) = s := by
  induction s with
  | nil => rfl
  | cons c t ih =>
      simp only [List.mem_cons, not_or] at h
      rw [clean_cons, parse_esc c (fun e => h.1 e.symm), ih h.2]

/-! ## Evaluation of decode on each registered tag

The registered tags form a prefix-free set and each tag's first one or two
characters already distinguish it from every earlier entry of PREFIX_MAP, so
decode on a tagged line is independent of the payload. -/

theorem decode_line_v (X : LC) :
    decode PREFIX_MAP ('v' :: ':' :: X) = some ("version", parse_for_decoding X) := by
  simp [decode, PREFIX_MAP, List.isPrefixOf, List.find?]

theorem decode_line_s (X : LC) :
    decode PREFIX_MAP ('s' :: ':' :: X) = some ("system", parse_for_decoding X) := by
  simp [decode, PREFIX_MAP, List.isPrefixOf, List.find?]

theorem decode_line_p (X : LC) :
    decode PREFIX_MAP ('p' :: ':' :: X) = some ("package", parse_for_decoding X) := by
  simp [decode, PREFIX_MAP, List.isPrefixOf, List.find?]

theorem decode_line_k (X : LC) :
    decode PREFIX_MAP ('k' :: ':' :: X) = some ("kernel", parse_for_decoding X) := by
  simp [decode, PREFIX_MAP, List.isPrefixOf, List.find?]

theorem decode_line_c (X : LC) :
    decode PREFIX_MAP ('c' :: ':' :: X) = some ("cpu", parse_for_decoding X) := by
  simp [decode, PREFIX_MAP, List.isPrefixOf, List.find?]

theorem decode_line_m (X : LC) :
    decode PREFIX_MAP ('m' :: ':' :: X) = some ("memory", parse_for_decoding X) := by
  simp [decode, PREFIX_MAP, List.isPrefixOf, List.find?]

theorem decode_line_d (X : LC) :
    decode PREFIX_MAP ('d' :: ':' :: X) = some ("disk", parse_for_decoding X) := by
  simp [decode, PREFIX_MAP, List.isPrefixOf, List.find?]

theorem decode_line_g (X : LC) :
    decode PREFIX_MAP ('g' :: ':' :: X) = some ("gpu", parse_for_decoding X) := by
  simp [decode, PREFIX_MAP, List.isPrefixOf, List.find?]

theorem decode_line_f (X : LC) :
    decode PREFIX_MAP ('f' :: ':' :: X) = some ("file", parse_for_decoding X) := by
  simp [decode, PREFIX_MAP, List.isPrefixOf, List.find?]

theorem decode_line_cf (X : LC) :
    decode PREFIX_MAP ('c' :: 'f' :: ':' :: X) = some ("config", parse_for_decoding X) := by
  simp [decode, PREFIX_MAP, List.isPrefixOf, List.find?]

theorem decode_line_pk (X : LC) :
    decode PREFIX_MAP ('p' :: 'k' :: ':' :: X) =
      some ("package_config", parse_for_decoding X) := by
  simp [decode, PREFIX_MAP, List.isPrefixOf, List.find?]

theorem decode_line_sv (X : LC) :
    decode PREFIX_MAP ('s' :: 'v' :: ':' :: X) = some ("service", parse_for_decoding X) := by
  simp [decode, PREFIX_MAP, List.isPrefixOf, List.find?]

theorem decode_line_i (X : LC) :
    decode PREFIX_MAP ('i' :: ':' :: X) = some ("input", parse_for_decoding X) := by
  simp [decode, PREFIX_MAP, List.isPrefixOf, List.find?]

theorem decode_line_o (X : LC) :
    decode PREFIX_MAP ('o' :: ':' :: X) = some ("output", parse_for_decoding X) := by
  simp [decode, PREFIX_MAP, List.isPrefixOf, List.find?]

theorem decode_line_n (X : LC) :
    decode PREFIX_MAP ('n' :: ':' :: X) = some ("network", parse_for_decoding X) := by
  simp [decode, PREFIX_MAP, List.isPrefixOf, List.find?]

theorem decode_line_cmd (X : LC) :
    decode PREFIX_MAP ('c' :: 'm' :: 'd' :: ':' :: X) =
      some ("command", parse_for_decoding X) := by
  simp [decode, PREFIX_MAP, List.isPrefixOf, List.find?]

theorem decode_line_r (X : LC) :
    decode PREFIX_MAP ('r' :: ':' :: X) = some ("runtime", parse_for_decoding X) := by
  simp [decode, PREFIX_MAP, List.isPrefixOf, List.find?]

theorem decode_line_b (X : LC) :
    decode PREFIX_MAP ('b' :: ':' :: X) = some ("build", parse_for_decoding X) := by
  simp [decode, PREFIX_MAP, List.isPrefixOf, List.find?]

theorem decode_line_t (X : LC) :
    decode PREFIX_MAP ('t' :: ':' :: X) = some ("tweak", parse_for_decoding X) := by
  simp [decode, PREFIX_MAP, List.isPrefixOf, List.find?]

theorem decode_line_e (X : LC) :
    decode PREFIX_MAP ('e' :: ':' :: X) = some ("error", parse_for_decoding X) := by
  simp [decode, PREFIX_MAP, List.isPrefixOf, List.find?]

theorem decode_line_a (X : LC) :
    decode PREFIX_MAP ('a' :: ':' :: X) = some ("alias", parse_for_decoding X) := by
  simp [decode, PREFIX_MAP, List.isPrefixOf, List.find?]

theorem decode_line_h (X : LC) :
    decode PREFIX_MAP ('h' :: ':' :: X) = some ("hook", parse_for_decoding X) := by
  simp [decode, PREFIX_MAP, List.isPrefixOf, List.find?]

theorem decode_line_scope (X : LC) :
    decode PREFIX_MAP ('s' :: 'c' :: 'o' :: 'p' :: 'e' :: ':' :: X) =
      some ("scope", parse_for_decoding X) := by
  simp [decode, PREFIX_MAP, List.isPrefixOf, List.find?]

/-! ## Lemmas about the split helpers -/

theorem splitFirst_eq_none (sep : Char) (l : LC) (h : sep ∉ l) :
    splitFirst sep l = none := by
  induction l with
  | nil => rfl
  | cons c rest ih =>
      simp only [List.mem_cons, not_or] at h
      have hc : ¬ c = sep := fun e => h.1 e.symm
      simp [splitFirst, hc, ih h.2]

theorem splitFirst_props (sep : Char) :
    ∀ l a b, splitFirst sep l = some (a, b) → l = a ++ sep :: b ∧ sep ∉ a := by
  intro l
  induction l with
  | nil => intro a b h; simp [splitFirst] at h
  | cons c rest ih =>
      intro a b h
      simp only [splitFirst] at h
      by_cases hc : c = sep
      · rw [if_pos hc] at h
        simp at h
        obtain ⟨h1, h2⟩ := h
        subst h1; subst h2; subst hc
        simp
      · rw [if_neg hc] at h
        cases hsf : splitFirst sep rest with
        | none => rw [hsf] at h; simp at h
        | some p =>
            rw [hsf] at h
            rcases p with ⟨p1, p2⟩
            simp at h
            obtain ⟨h1, h2⟩ := h
            obtain ⟨ih1, ih2⟩ := ih p1 p2 hsf
            subst h1; subst h2
            constructor
            · simp [← ih1]
            · simp only [List.mem_cons, not_or]
              exact ⟨fun e => hc e.symm, ih2⟩

theorem splitFirst_append (sep : Char) (x y : LC) (h : sep ∉ x) :
    splitFirst sep (x ++ sep :: y) = some (x, y) := by
  induction x with
  | nil => simp [splitFirst]
  | cons c rest ih =>
      simp only [List.mem_cons, not_or] at h
      have hc : ¬ c = sep := fun e => h.1 e.symm
      simp [splitFirst, hc, ih h.2]

theorem splitAll_no_sep (sep : Char) (l : LC) (h : sep ∉ l) :
    splitAll sep l = [l] := by
  induction l with
  | nil => rfl
  | cons c rest ih =>
      simp only [List.mem_cons, not_or] at h
      have hc : ¬ c = sep := fun e => h.1 e.symm
      simp [splitAll, hc, ih h.2]

theorem splitAll_ne_nil (sep : Char) (l : LC) : splitAll sep l ≠ [] := by
  cases l with
  | nil => simp [splitAll]
  | cons c rest =>
      by_cases hc : c = sep
      · simp [splitAll, hc]
      · simp only [splitAll, if_neg hc]
        cases splitAll sep rest <;> simp

theorem splitAll_append (sep : Char) (x y : LC) (h : sep ∉ x) :
    splitAll sep (x ++ sep :: y) = x :: splitAll sep y := by
  induction x with
  | nil => simp [splitAll]
  | cons c rest ih =>
      simp only [List.mem_cons, not_or] at h
      have hc : ¬ c = sep := fun e => h.1 e.symm
      simp only [List.cons_append, splitAll, if_neg hc, List.append_eq]
      rw [ih h.2]

theorem splitAll_pieces (sep : Char) :
    ∀ l x, x ∈ splitAll sep l → sep ∉ x ∧ ∀ c ∈ x, c ∈ l := by
  intro l
  induction l with
  | nil =>
      intro x hx
      simp [splitAll] at hx
      simp [hx]
  | cons c rest ih =>
      intro x hx
      by_cases hc : c = sep
      · rw [show splitAll sep (c :: rest) = [] :: splitAll sep rest by
            simp [splitAll, hc]] at hx
        rcases List.mem_cons.mp hx with h0 | h0
        · simp [h0]
        · obtain ⟨ha, hb⟩ := ih x h0
          exact ⟨ha, fun ch hch => List.mem_cons_of_mem c (hb ch hch)⟩
      · have hne := splitAll_ne_nil sep rest
        cases he : splitAll sep rest with
        | nil => exact absurd he hne
        | cons p ps =>
            rw [show splitAll sep (c :: rest) = (c :: p) :: ps by
                simp only [splitAll, if_neg hc, he]] at hx
            rcases List.mem_cons.mp hx with h0 | h0
            · subst h0
              have hp : p ∈ splitAll sep rest := by rw [he]; simp
              obtain ⟨ha, hb⟩ := ih p hp
              constructor
              · simp only [List.mem_cons, not_or]
                exact ⟨fun e => hc e.symm, ha⟩
              · intro ch hch
                rcases List.mem_cons.mp hch with h1 | h1
                · simp [h1]
                · exact List.mem_cons_of_mem c (hb ch h1)
            · have hp : x ∈ splitAll sep rest := by
                rw [he]; exact List.mem_cons_of_mem p h0
              obtain ⟨ha, hb⟩ := ih x hp
              exact ⟨ha, fun ch hch => List.mem_cons_of_mem c (hb ch hch)⟩

theorem intercalate_cons_cons (sep : LC) (a : LC) (b : LC) (t : List LC) :
    List.intercalate sep (a :: b :: t) = a ++ sep ++ List.intercalate sep (b :: t) := by
  simp [List.intercalate, List.intersperse]

theorem splitAll_intercalate (sep : Char) :
    ∀ items, items ≠ [] → (∀ i ∈ items, sep ∉ i) →
      splitAll sep (List.intercalate [sep] items) = items := by
  intro items
  induction items with
  | nil => intro h; exact absurd rfl h
  | cons i rest ih =>
      intro _ hall
      cases rest with
      | nil =>
          simp [List.intercalate]
          exact splitAll_no_sep sep i (hall i (by simp))
      | cons j t =>
          rw [intercalate_cons_cons]
          rw [show i ++ [sep] ++ List.intercalate [sep] (j :: t) =
              i ++ sep :: List.intercalate [sep] (j :: t) by simp]
          rw [splitAll_append sep _ _ (hall i (by simp))]
          rw [ih (by simp) (fun x hx => hall x (List.mem_cons_of_mem i hx))]

/-! ## Lemmas about lastDashSplit and the package regular expression -/

theorem lastDashSplit_eq_none (l : LC) (h : '-' ∉ l) : lastDashSplit l = none := by
  induction l with
  | nil => rfl
  | cons c rest ih =>
      simp only [List.mem_cons, not_or] at h
      have hc : ¬ c = '-' := fun e => h.1 e.symm
      simp [lastDashSplit, ih h.2, hc]

theorem lastDashSplit_none_imp :
    ∀ l, lastDashSplit l = none → '-' ∉ l := by
  intro l
  induction l with
  | nil => intro _; simp
  | cons c rest ih =>
      intro h
      simp only [lastDashSplit] at h
      cases hr : lastDashSplit rest with
      | some p => rw [hr] at h; rcases p with ⟨p1, p2⟩; simp at h
      | none =>
          rw [hr] at h
          by_cases hc : c = '-'
          · rw [if_pos hc] at h; simp at h
          · simp only [List.mem_cons, not_or]
            exact ⟨fun e => hc e.symm, ih hr⟩

theorem lastDashSplit_props :
    ∀ l n v, lastDashSplit l = some (n, v) → l = n ++ '-' :: v ∧ '-' ∉ v := by
  intro l
  induction l with
  | nil => intro n v h; simp [lastDashSplit] at h
  | cons c rest ih =>
      intro n v h
      simp only [lastDashSplit] at h
      cases hr : lastDashSplit rest with
      | some p =>
          rw [hr] at h
          rcases p with ⟨p1, p2⟩
          simp at h
          obtain ⟨h1, h2⟩ := h
          obtain ⟨ih1, ih2⟩ := ih p1 p2 hr
          subst h1; subst h2
          simp [← ih1, ih2]
      | none =>
          rw [hr] at h
          by_cases hc : c = '-'
          · rw [if_pos hc] at h
            simp at h
            obtain ⟨h1, h2⟩ := h
            subst h1; subst h2; subst hc
            exact ⟨rfl, lastDashSplit_none_imp _ hr⟩
          · rw [if_neg hc] at h
            simp at h

theorem lastDashSplit_append (n v : LC) (h : '-' ∉ v) :
    lastDashSplit (n ++ '-' :: v) = some (n, v) := by
  induction n with
  | nil => simp [lastDashSplit, lastDashSplit_eq_none v h]
  | cons c rest ih => simp [lastDashSplit, ih]

theorem decode_package_rec_enc (n v : LC) (hn : n ≠ []) (hv : v ≠ []) (hdv : '-' ∉ v)
    (hnl : '\n' ∉ n) :
    decode_package_rec (n ++ '-' :: v) = { name := n, version := v } := by
  unfold decode_package_rec
  rw [lastDashSplit_append n v hdv]
  simp [hn, hv, hnl]

/-! ## Lemmas about splitAtMost and the package_config fields -/

theorem splitAtMost_succ (sep : Char) (n : Nat) (l : LC) :
    splitAtMost sep (n + 1) l =
      match splitFirst sep l with
      | none => [l]
      | some (a, b) => a :: splitAtMost sep n b := rfl

theorem splitAtMost_step (sep : Char) (n : Nat) (x y : LC) (h : sep ∉ x) :
    splitAtMost sep (n + 1) (x ++ sep :: y) = x :: splitAtMost sep n y := by
  rw [splitAtMost_succ, splitFirst_append sep x y h]

theorem splitAtMost3_append (a b c e : LC) (ha : ':' ∉ a) (hb : ':' ∉ b) (hc : ':' ∉ c) :
    splitAtMost ':' 3 (a ++ ':' :: (b ++ ':' :: (c ++ ':' :: e))) = [a, b, c, e] := by
  rw [show (3 : Nat) = 2 + 1 from rfl, splitAtMost_step _ _ _ _ ha]
  rw [show (2 : Nat) = 1 + 1 from rfl, splitAtMost_step _ _ _ _ hb]
  rw [show (1 : Nat) = 0 + 1 from rfl, splitAtMost_step _ _ _ _ hc]
  rfl

theorem decode_pkc_enc (a b c e : LC) (ha : ':' ∉ a) (hb : ':' ∉ b) (hc : ':' ∉ c) :
    decode_package_config_rec (a ++ ':' :: (b ++ ':' :: (c ++ ':' :: e))) =
      some { package := a, config_type := b, path := c, content := e } := by
  unfold decode_package_config_rec
  rw [splitAtMost3_append a b c e ha hb hc]

theorem splitAtMost3_eq (d : LC) :
    splitAtMost ':' 3 d =
      match splitFirst ':' d with
      | none => [d]
      | some (a, r1) =>
        match splitFirst ':' r1 with
        | none => [a, r1]
        | some (b, r2) =>
          match splitFirst ':' r2 with
          | none => [a, b, r2]
          | some (c, r3) => [a, b, c, r3] := by
  rw [show (3 : Nat) = 2 + 1 from rfl, splitAtMost_succ]
  cases splitFirst ':' d with
  | none => rfl
  | some p1 =>
      rcases p1 with ⟨a, r1⟩
      simp only
      rw [show (2 : Nat) = 1 + 1 from rfl, splitAtMost_succ]
      cases splitFirst ':' r1 with
      | none => rfl
      | some p2 =>
          rcases p2 with ⟨b, r2⟩
          simp only
          rw [show (1 : Nat) = 0 + 1 from rfl, splitAtMost_succ]
          cases splitFirst ':' r2 with
          | none => rfl
          | some p3 => rcases p3 with ⟨c, r3⟩; rfl

theorem decode_pkc_props (d : LC) (pc : PackageConfig)
    (h : decode_package_config_rec d = some pc) :
    d = pc.package ++ ':' :: (pc.config_type ++ ':' :: (pc.path ++ ':' :: pc.content)) ∧
    ':' ∉ pc.package ∧ ':' ∉ pc.config_type ∧ ':' ∉ pc.path := by
  unfold decode_package_config_rec at h
  rw [splitAtMost3_eq] at h
  cases h1 : splitFirst ':' d with
  | none => rw [h1] at h; simp at h
  | some p1 =>
      rw [h1] at h
      rcases p1 with ⟨a, r1⟩
      simp only at h
      cases h2 : splitFirst ':' r1 with
      | none => rw [h2] at h; simp at h
      | some p2 =>
          rw [h2] at h
          rcases p2 with ⟨b, r2⟩
          simp only at h
          cases h3 : splitFirst ':' r2 with
          | none => rw [h3] at h; simp at h
          | some p3 =>
              rw [h3] at h
              rcases p3 with ⟨c, r3⟩
              simp only [Option.some.injEq] at h
              obtain ⟨d1, d2⟩ := splitFirst_props ':' d a r1 h1
              obtain ⟨d3, d4⟩ := splitFirst_props ':' r1 b r2 h2
              obtain ⟨d5, d6⟩ := splitFirst_props ':' r2 c r3 h3
              rw [← h]
              refine ⟨?_, d2, d4, d6⟩
              rw [d1, d3, d5]

/-! ## Lemmas about the insertion-ordered dict -/

theorem dictGet_dictInsert_self {α : Type} (k : LC) (v : α) (d : List (LC × α)) :
    dictGet k (dictInsert k v d) = some v := by
  induction d with
  | nil => simp [dictInsert, dictGet]
  | cons e rest ih =>
      rcases e with ⟨k0, v0⟩
      by_cases h : k0 = k
      · subst h; simp [dictInsert, dictGet]
      · simp only [dictInsert, if_neg h]
        simp only [dictGet, List.find?] at ih ⊢
        simp [h, ih]

theorem dictGet_dictInsert_ne {α : Type} (k q : LC) (v : α) (d : List (LC × α))
    (h : q ≠ k) : dictGet q (dictInsert k v d) = dictGet q d := by
  have hk : ¬ k = q := fun e => h e.symm
  induction d with
  | nil => simp [dictInsert, dictGet, hk]
  | cons e rest ih =>
      rcases e with ⟨k0, v0⟩
      by_cases h0 : k0 = k
      · subst h0
        have : ¬ k0 = q := fun e => h e.symm
        simp [dictInsert, dictGet, List.find?, this]
      · simp only [dictInsert, if_neg h0]
        simp only [dictGet, List.find?] at ih ⊢
        by_cases hq : k0 = q
        · simp [hq]
        · simp [hq, ih]

theorem dictInsert_mem {α : Type} (k : LC) (v : α) (d : List (LC × α)) (x : LC × α)
    (h : x ∈ dictInsert k v d) : x = (k, v) ∨ x ∈ d := by
  induction d with
  | nil => simp [dictInsert] at h; simp [h]
  | cons e rest ih =>
      rcases e with ⟨k0, v0⟩
      by_cases h0 : k0 = k
      · subst h0
        simp only [dictInsert, if_pos rfl] at h
        rcases List.mem_cons.mp h with h1 | h1
        · exact Or.inl (by simp [h1])
        · exact Or.inr (List.mem_cons_of_mem _ h1)
      · simp only [dictInsert, if_neg h0] at h
        rcases List.mem_cons.mp h with h1 | h1
        · exact Or.inr (by simp [h1])
        · rcases ih h1 with h2 | h2
          · exact Or.inl h2
          · exact Or.inr (List.mem_cons_of_mem _ h2)

theorem dictInsert_keys_sub {α : Type} (k : LC) (v : α) (d : List (LC × α)) (q : LC)
    (h : q ∈ (dictInsert k v d).map Prod.fst) : q = k ∨ q ∈ d.map Prod.fst := by
  simp only [List.mem_map] at h
  obtain ⟨x, hx, hq⟩ := h
  rcases dictInsert_mem k v d x hx with h1 | h1
  · left; rw [← hq, h1]
  · exact Or.inr (List.mem_map.mpr ⟨x, h1, hq⟩)

theorem dictInsert_keys_nodup {α : Type} (k : LC) (v : α) (d : List (LC × α))
    (h : (d.map Prod.fst).Nodup) : ((dictInsert k v d).map Prod.fst).Nodup := by
  induction d with
  | nil => simp [dictInsert]
  | cons e rest ih =>
      rcases e with ⟨k0, v0⟩
      simp only [List.map_cons, List.nodup_cons] at h
      by_cases h0 : k0 = k
      · subst h0
        simp only [dictInsert, if_true, eq_self_iff_true, List.map_cons, List.nodup_cons]
        exact h
      · simp only [dictInsert, if_neg h0, List.map_cons, List.nodup_cons]
        constructor
        · intro hmem
          rcases dictInsert_keys_sub k v rest k0 hmem with h1 | h1
          · exact h0 h1
          · exact h.1 h1
        · exact ih h.2

theorem dictInsert_not_mem {α : Type} (k : LC) (v : α) (d : List (LC × α))
    (h : k ∉ d.map Prod.fst) : dictInsert k v d = d ++ [(k, v)] := by
  induction d with
  | nil => rfl
  | cons e rest ih =>
      rcases e with ⟨k0, v0⟩
      simp only [List.map_cons, List.mem_cons, not_or] at h
      have h0 : ¬ k0 = k := fun e => h.1 e.symm
      simp [dictInsert, h0, ih h.2]

theorem dict_rebuild_aux {α : Type} :
    ∀ (st acc : List (LC × α)), (st.map Prod.fst).Nodup →
      (∀ q ∈ st.map Prod.fst, q ∉ acc.map Prod.fst) →
      st.foldl (fun a e => dictInsert e.1 e.2 a) acc = acc ++ st := by
  intro st
  induction st with
  | nil => intro acc _ _; simp
  | cons e rest ih =>
      intro acc hnd hdis
      rcases e with ⟨k, v⟩
      simp only [List.map_cons, List.nodup_cons] at hnd
      have hnd2 : (rest.map Prod.fst).Nodup := hnd.2
      have hdis2 : ∀ q ∈ rest.map Prod.fst, q ∉ (acc ++ [(k, v)]).map Prod.fst := by
        intro q hq
        simp only [List.map_append, List.mem_append, not_or]
        refine ⟨hdis q (List.mem_cons_of_mem _ hq), ?_⟩
        simp only [List.map_cons, List.map_nil, List.mem_singleton]
        intro hc
        exact hnd.1 (hc ▸ hq)
      simp only [List.foldl_cons]
      have hkmem : k ∈ ((k, v) :: rest).map Prod.fst := by
        simp only [List.map_cons, List.mem_cons]
        left
        trivial
      rw [dictInsert_not_mem k v acc (hdis k hkmem), ih (acc ++ [(k, v)]) hnd2 hdis2]
      simp

theorem dict_rebuild {α : Type} (st : List (LC × α)) (h : (st.map Prod.fst).Nodup) :
    st.foldl (fun a e => dictInsert e.1 e.2 a) [] = st := by
  have hd : ∀ q ∈ st.map Prod.fst, q ∉ (([] : List (LC × α)).map Prod.fst) := by
    intro q _
    simp
  have := dict_rebuild_aux st [] h hd
  simpa using this

/-! # Claim theorems -/

/-- C1 counterexample: the round trip is NOT the identity on every payload:
the two-character payload backslash-n contains no newline, carriage return or
colon, so it encodes unchanged, and decoding then rewrites the literal
backslash-n into a one-character newline. -/
theorem c1_backslash_payload_fails :
    (encode PREFIX_MAP "package" ['\\', 'n']).bind (decode PREFIX_MAP) =
      some ("package", ['\n']) ∧ (['\n'] : LC) ≠ ['\\', 'n'] := by
  constructor
  · decide
  · decide

/-- C1 (amended): for every registered record type and every payload free of
literal backslash characters (payloads containing colons, newlines and
carriage returns included), decoding the encoding returns the original
(type, payload) pair. -/
theorem c1_round_trip (pre : LC) (t : String) (hm : (pre, t) ∈ PREFIX_MAP)
    (s : LC) (hs : '\\' ∉ s) :
    (encode PREFIX_MAP t s).bind (decode PREFIX_MAP) = some (t, s) := by
  have hp : parse_for_decoding (clean_for_encoding s) = s := parse_clean s hs
  fin_cases hm
  · rw [show encode PREFIX_MAP "version" s = some ('v' :: ':' :: clean_for_encoding s) by
        simp [encode, reverseGet, PREFIX_MAP]]
    show decode PREFIX_MAP ('v' :: ':' :: clean_for_encoding s) = _
    rw [decode_line_v, hp]
  · rw [show encode PREFIX_MAP "system" s = some ('s' :: ':' :: clean_for_encoding s) by
        simp [encode, reverseGet, PREFIX_MAP]]
    show decode PREFIX_MAP ('s' :: ':' :: clean_for_encoding s) = _
    rw [decode_line_s, hp]
  · rw [show encode PREFIX_MAP "package" s = some ('p' :: ':' :: clean_for_encoding s) by
        simp [encode, reverseGet, PREFIX_MAP]]
    show decode PREFIX_MAP ('p' :: ':' :: clean_for_encoding s) = _
    rw [decode_line_p, hp]
  · rw [show encode PREFIX_MAP "kernel" s = some ('k' :: ':' :: clean_for_encoding s) by
        simp [encode, reverseGet, PREFIX_MAP]]
    show decode PREFIX_MAP ('k' :: ':' :: clean_for_encoding s) = _
    rw [decode_line_k, hp]
  · rw [show encode PREFIX_MAP "cpu" s = some ('c' :: ':' :: clean_for_encoding s) by
        simp [encode, reverseGet, PREFIX_MAP]]
    show decode PREFIX_MAP ('c' :: ':' :: clean_for_encoding s) = _
    rw [decode_line_c, hp]
  · rw [show encode PREFIX_MAP "memory" s = some ('m' :: ':' :: clean_for_encoding s) by
        simp [encode, reverseGet, PREFIX_MAP]]
    show decode PREFIX_MAP ('m' :: ':' :: clean_for_encoding s) = _
    rw [decode_line_m, hp]
  · rw [show encode PREFIX_MAP "disk" s = some ('d' :: ':' :: clean_for_encoding s) by
        simp [encode, reverseGet, PREFIX_MAP]]
    show decode PREFIX_MAP ('d' :: ':' :: clean_for_encoding s) = _
    rw [decode_line_d, hp]
  · rw [show encode PREFIX_MAP "gpu" s = some ('g' :: ':' :: clean_for_encoding s) by
        simp [encode, reverseGet, PREFIX_MAP]]
    show decode PREFIX_MAP ('g' :: ':' :: clean_for_encoding s) = _
    rw [decode_line_g, hp]
  · rw [show encode PREFIX_MAP "file" s = some ('f' :: ':' :: clean_for_encoding s) by
        simp [encode, reverseGet, PREFIX_MAP]]
    show decode PREFIX_MAP ('f' :: ':' :: clean_for_encoding s) = _
    rw [decode_line_f, hp]
  · rw [show encode PREFIX_MAP "config" s =
        some ('c' :: 'f' :: ':' :: clean_for_encoding s) by
        simp [encode, reverseGet, PREFIX_MAP]]
    show decode PREFIX_MAP ('c' :: 'f' :: ':' :: clean_for_encoding s) = _
    rw [decode_line_cf, hp]
  · rw [show encode PREFIX_MAP "package_config" s =
        some ('p' :: 'k' :: ':' :: clean_for_encoding s) by
        simp [encode, reverseGet, PREFIX_MAP]]
    show decode PREFIX_MAP ('p' :: 'k' :: ':' :: clean_for_encoding s) = _
    rw [decode_line_pk, hp]
  · rw [show encode PREFIX_MAP "service" s =
        some ('s' :: 'v' :: ':' :: clean_for_encoding s) by
        simp [encode, reverseGet, PREFIX_MAP]]
    show decode PREFIX_MAP ('s' :: 'v' :: ':' :: clean_for_encoding s) = _
    rw [decode_line_sv, hp]
  · rw [show encode PREFIX_MAP "input" s = some ('i' :: ':' :: clean_for_encoding s) by
        simp [encode, reverseGet, PREFIX_MAP]]
    show decode PREFIX_MAP ('i' :: ':' :: clean_for_encoding s) = _
    rw [decode_line_i, hp]
  · rw [show encode PREFIX_MAP "output" s = some ('o' :: ':' :: clean_for_encoding s) by
        simp [encode, reverseGet, PREFIX_MAP]]
    show decode PREFIX_MAP ('o' :: ':' :: clean_for_encoding s) = _
    rw [decode_line_o, hp]
  · rw [show encode PREFIX_MAP "network" s = some ('n' :: ':' :: clean_for_encoding s) by
        simp [encode, reverseGet, PREFIX_MAP]]
    show decode PREFIX_MAP ('n' :: ':' :: clean_for_encoding s) = _
    rw [decode_line_n, hp]
  · rw [show encode PREFIX_MAP "command" s =
        some ('c' :: 'm' :: 'd' :: ':' :: clean_for_encoding s) by
        simp [encode, reverseGet, PREFIX_MAP]]
    show decode PREFIX_MAP ('c' :: 'm' :: 'd' :: ':' :: clean_for_encoding s) = _
    rw [decode_line_cmd, hp]
  · rw [show encode PREFIX_MAP "runtime" s = some ('r' :: ':' :: clean_for_encoding s) by
        simp [encode, reverseGet, PREFIX_MAP]]
    show decode PREFIX_MAP ('r' :: ':' :: clean_for_encoding s) = _
    rw [decode_line_r, hp]
  · rw [show encode PREFIX_MAP "build" s = some ('b' :: ':' :: clean_for_encoding s) by
        simp [encode, reverseGet, PREFIX_MAP]]
    show decode PREFIX_MAP ('b' :: ':' :: clean_for_encoding s) = _
    rw [decode_line_b, hp]
  · rw [show encode PREFIX_MAP "tweak" s = some ('t' :: ':' :: clean_for_encoding s) by
        simp [encode, reverseGet, PREFIX_MAP]]
    show decode PREFIX_MAP ('t' :: ':' :: clean_for_encoding s) = _
    rw [decode_line_t, hp]
  · rw [show encode PREFIX_MAP "error" s = some ('e' :: ':' :: clean_for_encoding s) by
        simp [encode, reverseGet, PREFIX_MAP]]
    show decode PREFIX_MAP ('e' :: ':' :: clean_for_encoding s) = _
    rw [decode_line_e, hp]
  · rw [show encode PREFIX_MAP "alias" s = some ('a' :: ':' :: clean_for_encoding s) by
        simp [encode, reverseGet, PREFIX_MAP]]
    show decode PREFIX_MAP ('a' :: ':' :: clean_for_encoding s) = _
    rw [decode_line_a, hp]
  · rw [show encode PREFIX_MAP "hook" s = some ('h' :: ':' :: clean_for_encoding s) by
        simp [encode, reverseGet, PREFIX_MAP]]
    show decode PREFIX_MAP ('h' :: ':' :: clean_for_encoding s) = _
    rw [decode_line_h, hp]
  · rw [show encode PREFIX_MAP "scope" s =
        some ('s' :: 'c' :: 'o' :: 'p' :: 'e' :: ':' :: clean_for_encoding s) by
        simp [encode, reverseGet, PREFIX_MAP]]
    show decode PREFIX_MAP ('s' :: 'c' :: 'o' :: 'p' :: 'e' :: ':' :: clean_for_encoding s) = _
    rw [decode_line_scope, hp]

/-- C1 witness: the amended round trip at the package type with a payload
containing a colon. -/
theorem c1_round_trip_witness :
    (("p:".data, "package") ∈ PREFIX_MAP ∧ '\\' ∉ "a:b-1.0".data) ∧
    (encode PREFIX_MAP "package" "a:b-1.0".data).bind (decode PREFIX_MAP) =
      some ("package", "a:b-1.0".data) :=
  ⟨⟨by decide, by decide⟩,
   c1_round_trip "p:".data "package" (by decide) "a:b-1.0".data (by decide)⟩

/-- C5 counterexample: __init__ accepts, with no validation, a spec-file
prefix map in which one tag is a proper string prefix of another; the
successfully constructed registry stores the violating map verbatim. -/
theorem c5_no_validation :
    (mkClaudeScript (some overlapSpecFile)).prefix_map = overlapReg ∧
    noOverlap (mkClaudeScript (some overlapSpecFile)).prefix_map = false ∧
    ("a:".data).isPrefixOf "a:b".data = true := by
  refine ⟨rfl, by decide, by decide⟩

/-- C5 (amended): registry construction performs no validation and stores any
supplied prefix map unchanged; the default PREFIX_MAP itself, however, is a
bijection whose tags are pairwise non-prefix of one another. -/
theorem c5_construction :
    noOverlap PREFIX_MAP = true ∧ regBijective PREFIX_MAP = true ∧
    (mkClaudeScript none).prefix_map = PREFIX_MAP ∧
    ∀ sp : SpecFile, (mkClaudeScript (some sp)).prefix_map = sp.prefixes.getD PREFIX_MAP := by
  refine ⟨by decide, by decide, rfl, fun sp => rfl⟩

/-- C6 counterexample: with a registry in which both a shorter and a longer
tag start the input line, decode returns the first match in registry
iteration order (here the shorter tag and record type t1), not the longest
match (tag a:b with record type t2). -/
theorem c6_first_match_not_longest :
    ("a:".data).isPrefixOf "a:bc".data = true ∧
    ("a:b".data).isPrefixOf "a:bc".data = true ∧
    decode overlapReg "a:bc".data = some ("t1", "bc".data) ∧
    decode overlapReg "a:bc".data ≠ some ("t2", "c".data) := by
  refine ⟨by decide, by decide, by decide, by decide⟩

/-- C6 (amended): for every registry and line, decode deterministically
selects the first entry in registry iteration order whose tag starts the
line — even when a later entry carries a longer matching tag — and returns
that entry's record type with the unescaped remainder as payload. -/
theorem c6_first_match (reg1 : List (LC × String)) (e : LC × String)
    (reg2 : List (LC × String)) (line : LC)
    (hfirst : ∀ f ∈ reg1, ¬ (f.1.isPrefixOf line = true))
    (hmatch : e.1.isPrefixOf line = true) :
    decode (reg1 ++ e :: reg2) line =
      some (e.2, parse_for_decoding (line.drop e.1.length)) := by
  induction reg1 with
  | nil =>
      unfold decode
      rw [List.nil_append,
          @List.find?_cons_of_pos (LC × String) (fun f => f.1.isPrefixOf line) e reg2 hmatch]
  | cons f rest ih =>
      unfold decode at ih ⊢
      rw [List.cons_append,
          @List.find?_cons_of_neg (LC × String) (fun g => g.1.isPrefixOf line) f
            (rest ++ e :: reg2)
            (by simpa using hfirst f (List.mem_cons_self f rest))]
      exact ih (fun g hg => hfirst g (List.mem_cons_of_mem f hg))

/-- C6 witness: the amended first-match theorem applied to the overlapping
registry and the line a:bc. -/
theorem c6_first_match_witness :
    ((∀ f ∈ ([] : List (LC × String)), ¬ (f.1.isPrefixOf "a:bc".data = true)) ∧
     (("a:".data, "t1") : LC × String).1.isPrefixOf "a:bc".data = true) ∧
    decode ([] ++ ("a:".data, "t1") :: [("a:b".data, "t2")]) "a:bc".data =
      some (("a:".data, "t1").2,
        parse_for_decoding ("a:bc".data.drop ("a:".data : LC).length)) :=
  ⟨⟨fun f hf => absurd hf (List.not_mem_nil f), by decide⟩,
   c6_first_match [] ("a:".data, "t1") [("a:b".data, "t2")] "a:bc".data
     (fun f hf => absurd hf (List.not_mem_nil f)) (by decide)⟩

/-- C9: decoding the line zz:foo with the default registry fails (no
registered tag starts it), and in general decode succeeds exactly when some
registered tag is a prefix of the line. -/
theorem c9_unknown_tag :
    decode PREFIX_MAP "zz:foo".data = none ∧
    ∀ (reg : List (LC × String)) (line : LC),
      (decode reg line).isSome ↔ ∃ e ∈ reg, e.1.isPrefixOf line := by
  constructor
  · decide
  · intro reg line
    unfold decode
    cases hf : reg.find? (fun e => e.1.isPrefixOf line) with
    | none =>
        rw [List.find?_eq_none] at hf
        simp only [Option.isSome_none, Bool.false_eq_true, false_iff, not_exists]
        intro e he
        exact absurd he.2 (by simpa using hf e he.1)
    | some e =>
        simp only [Option.isSome_some, true_iff]
        exact ⟨e, List.mem_of_find?_eq_some hf, by simpa using List.find?_some hf⟩

/-- C7: diffing is symmetric on packages: added of Diff(A,B) is removed of
Diff(B,A) and vice versa, and since both sides are name-only set
subtractions, a name present in both snapshots (whatever its versions) is
reported by neither side. -/
theorem c7_diff_symmetry (A B : Snapshot) :
    (compare_snapshots A B).added_packages = (compare_snapshots B A).removed_packages ∧
    (compare_snapshots A B).removed_packages = (compare_snapshots B A).added_packages ∧
    ∀ n, n ∈ pkgNameSet A → n ∈ pkgNameSet B →
      n ∉ (compare_snapshots A B).added_packages ∧
      n ∉ (compare_snapshots A B).removed_packages := by
  refine ⟨rfl, rfl, ?_⟩
  intro n hA hB
  constructor
  · simp [compare_snapshots, Finset.mem_sdiff, hA]
  · simp [compare_snapshots, Finset.mem_sdiff, hB]

/-- C7 witness: the name vim, present in the scenario snapshot on both sides,
is reported in neither direction of the self-diff. -/
theorem c7_diff_symmetry_witness :
    ("vim".data ∈ pkgNameSet c2Snapshot ∧ "vim".data ∈ pkgNameSet c2Snapshot) ∧
    ("vim".data ∉ (compare_snapshots c2Snapshot c2Snapshot).added_packages ∧
     "vim".data ∉ (compare_snapshots c2Snapshot c2Snapshot).removed_packages) :=
  ⟨⟨by decide, by decide⟩,
   (c7_diff_symmetry c2Snapshot c2Snapshot).2.2 "vim".data (by decide) (by decide)⟩

/-- C8: dry-run reconciliation of a snapshot holding exactly one package:
if the collaborator reports the package installed, the report holds one
already-installed warning and no changes and no errors; if not installed, it
holds exactly one would-install change and no warnings and no errors.  In
both cases no install action runs (the result is pure data). -/
theorem c8_dry_run (name ver : LC) (installed : LC → Bool) (pathE : LC → Bool)
    (hn : name ≠ []) :
    (installed name = true →
      apply_snapshot { emptySnapshot with packages := [{ name := name, version := ver }] }
        installed pathE true =
        { changes := [], errors := [],
          warnings := ["Package already installed: ".data ++ name] }) ∧
    (installed name = false →
      apply_snapshot { emptySnapshot with packages := [{ name := name, version := ver }] }
        installed pathE true =
        { changes := ["Would install package: ".data ++ name],
          errors := [], warnings := [] }) := by
  constructor
  · intro hi
    simp [apply_snapshot, emptySnapshot, hn, hi]
  · intro hi
    simp [apply_snapshot, emptySnapshot, hn, hi]

/-- C8 witness: both dry-run scenarios at the package vim. -/
theorem c8_dry_run_witness :
    ("vim".data ≠ ([] : LC)) ∧
    apply_snapshot { emptySnapshot with
        packages := [{ name := "vim".data, version := "9.1".data }] }
      (fun _ => true) (fun _ => false) true =
      { changes := [], errors := [],
        warnings := ["Package already installed: ".data ++ "vim".data] } ∧
    apply_snapshot { emptySnapshot with
        packages := [{ name := "vim".data, version := "9.1".data }] }
      (fun _ => false) (fun _ => false) true =
      { changes := ["Would install package: ".data ++ "vim".data],
        errors := [], warnings := [] } :=
  ⟨by decide,
   (c8_dry_run "vim".data "9.1".data (fun _ => true) (fun _ => false) (by decide)).1 rfl,
   (c8_dry_run "vim".data "9.1".data (fun _ => false) (fun _ => false) (by decide)).2 rfl⟩

/-- C2 counterexample: encoding then decoding the scenario snapshot yields a
config_files entry for /etc/fstab whose settings are defaults=relatime — the
",noatime" tail is lost, because decode_config_file splits the settings text
on commas before parsing equals signs and drops the item "noatime" — so the
decoded settings do NOT equal defaults=relatime,noatime. -/
theorem c2_comma_value_lost :
    (decode_snapshot (encode_snapshot c2Snapshot)).config_files =
      [{ path := "/etc/fstab".data,
         settings := [("defaults".data, "relatime".data)] }] ∧
    (decode_snapshot (encode_snapshot c2Snapshot)).config_files ≠
      [{ path := "/etc/fstab".data,
         settings := [("defaults".data, "relatime,noatime".data)] }] := by
  constructor
  · decide
  · decide

/-- C2 (amended): the firefox and vim packages round trip exactly through
encode_snapshot and decode_snapshot, and the /etc/fstab config path comes
back with settings mapping defaults=relatime (the comma-bearing value is
truncated at the list separator). -/
theorem c2_scenario :
    (decode_snapshot (encode_snapshot c2Snapshot)).packages =
      [{ name := "firefox".data, version := "120.0".data },
       { name := "vim".data, version := "9.1".data }] ∧
    (decode_snapshot (encode_snapshot c2Snapshot)).config_files =
      [{ path := "/etc/fstab".data,
         settings := [("defaults".data, "relatime".data)] }] := by
  constructor
  · decide
  · decide

/-! ## Lemmas for the decode_snapshot fold -/

theorem step_not_ok (s : Snapshot) (l : LC) (h : ¬ lineOk l = true) :
    decodeSnapshotStep s l = s := by
  cases hd : decode PREFIX_MAP l with
  | none => simp [decodeSnapshotStep, hd]
  | some td =>
      rcases td with ⟨t, d⟩
      simp only [lineOk, hd] at h
      by_cases ht : t = "package_config"
      · subst ht
        simp only [if_pos rfl] at h
        have hn : decode_package_config_rec d = none := by
          cases hc : decode_package_config_rec d with
          | none => rfl
          | some pc => rw [hc] at h; simp at h
        simp [decodeSnapshotStep, hd, hn]
      · rw [if_neg ht] at h
        simp at h

theorem foldl_step_filter :
    ∀ (lines : List LC) (s : Snapshot),
      lines.foldl decodeSnapshotStep s =
        (lines.filter (fun l => lineOk l)).foldl decodeSnapshotStep s := by
  intro lines
  induction lines with
  | nil => intro s; rfl
  | cons l ls ih =>
      intro s
      by_cases hl : lineOk l = true
      · rw [List.filter_cons, if_pos hl]
        simp only [List.foldl_cons]
        exact ih (decodeSnapshotStep s l)
      · rw [List.filter_cons, if_neg hl]
        simp only [List.foldl_cons]
        rw [step_not_ok s l hl]
        exact ih s

/-- C4: decode_snapshot is total (a Lean function) and per-line failures are
recoverable: a line matching no registered tag, or a package_config line with
fewer than four colon-separated fields, leaves the fold state unchanged, so
the decoded snapshot equals the fold over only the successfully decoded
lines. -/
theorem c4_recoverable_lines (lines : List LC) :
    decode_snapshot lines = decode_snapshot (lines.filter (fun l => lineOk l)) :=
  foldl_step_filter lines emptySnapshot

/-! ## Lemmas for the changed-config detection -/

theorem configDict_get (common : Finset LC) (cs : List ConfigFile) (p : LC)
    (hp : p ∈ common) :
    dictGet p (configDict common cs) =
      (cs.reverse.find? (fun c => decide (c.path = p))).map ConfigFile.settings := by
  induction cs using List.reverseRecOn with
  | nil => simp [configDict, dictGet]
  | append_singleton cs c ih =>
      unfold configDict at ih ⊢
      rw [List.foldl_append]
      simp only [List.foldl_cons, List.foldl_nil]
      rw [List.reverse_append]
      simp only [List.reverse_singleton, List.singleton_append]
      by_cases hc : c.path ∈ common
      · rw [if_pos hc]
        by_cases hpc : c.path = p
        · subst hpc
          rw [dictGet_dictInsert_self]
          rw [@List.find?_cons_of_pos ConfigFile (fun d => decide (d.path = c.path)) c
              cs.reverse (by simp)]
          rfl
        · rw [dictGet_dictInsert_ne _ _ _ _ (fun e => hpc e.symm)]
          rw [ih]
          rw [@List.find?_cons_of_neg ConfigFile (fun d => decide (d.path = p)) c
              cs.reverse (by simpa using hpc)]
      · rw [if_neg hc]
        have hne : ¬ c.path = p := fun e => hc (e ▸ hp)
        rw [ih]
        rw [@List.find?_cons_of_neg ConfigFile (fun d => decide (d.path = p)) c
            cs.reverse (by simpa using hne)]

/-- C10: with duplicate config_files paths, the changed-config detection of
compare_snapshots compares exactly the LAST occurrence's settings for each
common path on each side (the per-path dict is built with later occurrences
overwriting earlier ones), while the added and removed config sets are plain
path-set differences, unaffected by duplicates. -/
theorem c10_duplicate_paths (s1 s2 : Snapshot) (p : LC) :
    (p ∈ (compare_snapshots s1 s2).changed_configs ↔
      p ∈ configPathSet s1 ∧ p ∈ configPathSet s2 ∧
      settingsNe (lastConfigSettings s1 p) (lastConfigSettings s2 p) = true) ∧
    (compare_snapshots s1 s2).added_configs = configPathSet s2 \ configPathSet s1 ∧
    (compare_snapshots s1 s2).removed_configs = configPathSet s1 \ configPathSet s2 := by
  refine ⟨?_, rfl, rfl⟩
  show p ∈ Finset.filter _ (configPathSet s1 ∩ configPathSet s2) ↔ _
  rw [Finset.mem_filter, Finset.mem_inter]
  constructor
  · rintro ⟨⟨h1, h2⟩, hne⟩
    refine ⟨h1, h2, ?_⟩
    have e1 := configDict_get (configPathSet s1 ∩ configPathSet s2) s1.config_files p
      (Finset.mem_inter.mpr ⟨h1, h2⟩)
    have e2 := configDict_get (configPathSet s1 ∩ configPathSet s2) s2.config_files p
      (Finset.mem_inter.mpr ⟨h1, h2⟩)
    unfold lastConfigSettings
    rw [← e1, ← e2]
    exact hne
  · rintro ⟨h1, h2, hne⟩
    refine ⟨⟨h1, h2⟩, ?_⟩
    have e1 := configDict_get (configPathSet s1 ∩ configPathSet s2) s1.config_files p
      (Finset.mem_inter.mpr ⟨h1, h2⟩)
    have e2 := configDict_get (configPathSet s1 ∩ configPathSet s2) s2.config_files p
      (Finset.mem_inter.mpr ⟨h1, h2⟩)
    unfold lastConfigSettings at hne
    rw [e1, e2]
    exact hne

/-! ## Evaluation of one decode_snapshot step on each tagged line shape -/

theorem step_v (σ : Snapshot) (d : LC) :
    decodeSnapshotStep σ ('v' :: ':' :: d) = { σ with version := parse_for_decoding d } := by
  simp [decodeSnapshotStep, decode_line_v]

theorem step_s (σ : Snapshot) (d : LC) :
    decodeSnapshotStep σ ('s' :: ':' :: d) =
      if ("sys:".data).isPrefixOf (parse_for_decoding d) then
        { σ with system_type := (parse_for_decoding d).drop 4 }
      else σ := by
  simp [decodeSnapshotStep, decode_line_s]

theorem step_scope (σ : Snapshot) (d : LC) :
    decodeSnapshotStep σ ('s' :: 'c' :: 'o' :: 'p' :: 'e' :: ':' :: d) =
      { σ with scope := some (parse_for_decoding d) } := by
  simp [decodeSnapshotStep, decode_line_scope]

theorem step_p (σ : Snapshot) (d : LC) :
    decodeSnapshotStep σ ('p' :: ':' :: d) =
      { σ with packages := σ.packages ++ [decode_package_rec (parse_for_decoding d)] } := by
  simp [decodeSnapshotStep, decode_line_p]

theorem step_k (σ : Snapshot) (d : LC) :
    decodeSnapshotStep σ ('k' :: ':' :: d) = { σ with kernel := some (parse_for_decoding d) } := by
  simp [decodeSnapshotStep, decode_line_k]

theorem step_c (σ : Snapshot) (d : LC) :
    decodeSnapshotStep σ ('c' :: ':' :: d) = { σ with cpu := some (parse_for_decoding d) } := by
  simp [decodeSnapshotStep, decode_line_c]

theorem step_m (σ : Snapshot) (d : LC) :
    decodeSnapshotStep σ ('m' :: ':' :: d) = { σ with memory := some (parse_for_decoding d) } := by
  simp [decodeSnapshotStep, decode_line_m]

theorem step_g (σ : Snapshot) (d : LC) :
    decodeSnapshotStep σ ('g' :: ':' :: d) = { σ with gpu := some (parse_for_decoding d) } := by
  simp [decodeSnapshotStep, decode_line_g]

theorem step_d (σ : Snapshot) (d : LC) :
    decodeSnapshotStep σ ('d' :: ':' :: d) = { σ with disk := some (parse_for_decoding d) } := by
  simp [decodeSnapshotStep, decode_line_d]

theorem step_cf (σ : Snapshot) (d : LC) :
    decodeSnapshotStep σ ('c' :: 'f' :: ':' :: d) =
      { σ with config_files := σ.config_files ++ [decode_config_rec (parse_for_decoding d)] } := by
  simp [decodeSnapshotStep, decode_line_cf]

theorem step_pk (σ : Snapshot) (d : LC) :
    decodeSnapshotStep σ ('p' :: 'k' :: ':' :: d) =
      match decode_package_config_rec (parse_for_decoding d) with
      | some pc => { σ with package_configs := σ.package_configs ++ [pc] }
      | none => σ := by
  simp [decodeSnapshotStep, decode_line_pk]

theorem step_t (σ : Snapshot) (d : LC) :
    decodeSnapshotStep σ ('t' :: ':' :: d) =
      { σ with tweaks := σ.tweaks ++ [decode_tweak_rec (parse_for_decoding d)] } := by
  simp [decodeSnapshotStep, decode_line_t]

theorem step_r (σ : Snapshot) (d : LC) :
    decodeSnapshotStep σ ('r' :: ':' :: d) =
      { σ with runtime_configs := σ.runtime_configs ++ [decode_runtime_rec (parse_for_decoding d)] } := by
  simp [decodeSnapshotStep, decode_line_r]

/-! ## Folding the decoder over the lines the encoder emits -/

theorem strOk_append (x y : LC) (hx : strOk x) (hy : strOk y) : strOk (x ++ y) := by
  obtain ⟨a1, a2, a3⟩ := hx
  obtain ⟨b1, b2, b3⟩ := hy
  refine ⟨?_, ?_, ?_⟩ <;> simp only [List.mem_append, not_or] <;> exact ⟨by assumption, by assumption⟩

theorem fold_version (σ : Snapshot) :
    List.foldl decodeSnapshotStep σ (encLines "version" SPEC_VERSION) =
      { σ with version := SPEC_VERSION } := by
  rw [show encLines "version" SPEC_VERSION =
      [('v' :: ':' :: clean_for_encoding SPEC_VERSION)] by
      simp [encLines, encode, reverseGet, PREFIX_MAP]]
  simp only [List.foldl_cons, List.foldl_nil]
  rw [step_v, parse_clean SPEC_VERSION (by decide)]

theorem fold_system (σ : Snapshot) (st : LC) (h : strOk st) :
    List.foldl decodeSnapshotStep σ (encLines "system" ("sys:".data ++ st)) =
      { σ with system_type := st } := by
  rw [show encLines "system" ("sys:".data ++ st) =
      [('s' :: ':' :: clean_for_encoding ("sys:".data ++ st))] by
      simp [encLines, encode, reverseGet, PREFIX_MAP]]
  simp only [List.foldl_cons, List.foldl_nil]
  rw [step_s]
  have hbs : '\\' ∉ ("sys:".data ++ st) := by
    simp only [List.mem_append, not_or]
    exact ⟨by decide, h.1⟩
  rw [parse_clean _ hbs]
  have hpre : ("sys:".data).isPrefixOf ("sys:".data ++ st) = true := by
    rw [List.isPrefixOf_iff_prefix]
    exact List.prefix_append _ _
  rw [if_pos hpre, show (4 : Nat) = ("sys:".data : LC).length from rfl, List.drop_left]

theorem fold_scope (σ : Snapshot) (o : Option LC) (h : optOk o) (h0 : σ.scope = none) :
    List.foldl decodeSnapshotStep σ (optLines "scope" o) =
      { σ with scope := o } := by
  cases o with
  | none =>
      show List.foldl decodeSnapshotStep σ [] = _
      simp only [List.foldl_nil]
      rw [← h0]
  | some sc =>
      show List.foldl decodeSnapshotStep σ (encLines "scope" sc) = _
      rw [show encLines "scope" sc =
          [('s' :: 'c' :: 'o' :: 'p' :: 'e' :: ':' :: clean_for_encoding sc)] by
          simp [encLines, encode, reverseGet, PREFIX_MAP]]
      simp only [List.foldl_cons, List.foldl_nil]
      rw [step_scope, parse_clean sc h.1]

theorem fold_kernel (σ : Snapshot) (o : Option LC) (h : optOk o) (h0 : σ.kernel = none) :
    List.foldl decodeSnapshotStep σ (optLines "kernel" o) =
      { σ with kernel := o } := by
  cases o with
  | none =>
      show List.foldl decodeSnapshotStep σ [] = _
      simp only [List.foldl_nil]
      rw [← h0]
  | some k =>
      show List.foldl decodeSnapshotStep σ (encLines "kernel" k) = _
      rw [show encLines "kernel" k = [('k' :: ':' :: clean_for_encoding k)] by
          simp [encLines, encode, reverseGet, PREFIX_MAP]]
      simp only [List.foldl_cons, List.foldl_nil]
      rw [step_k, parse_clean k h.1]

theorem fold_cpu (σ : Snapshot) (o : Option LC) (h : optOk o) (h0 : σ.cpu = none) :
    List.foldl decodeSnapshotStep σ (optLines "cpu" o) =
      { σ with cpu := o } := by
  cases o with
  | none =>
      show List.foldl decodeSnapshotStep σ [] = _
      simp only [List.foldl_nil]
      rw [← h0]
  | some c =>
      show List.foldl decodeSnapshotStep σ (encLines "cpu" c) = _
      rw [show encLines "cpu" c = [('c' :: ':' :: clean_for_encoding c)] by
          simp [encLines, encode, reverseGet, PREFIX_MAP]]
      simp only [List.foldl_cons, List.foldl_nil]
      rw [step_c, parse_clean c h.1]

theorem fold_memory (σ : Snapshot) (o : Option LC) (h : optOk o) (h0 : σ.memory = none) :
    List.foldl decodeSnapshotStep σ (optLines "memory" o) =
      { σ with memory := o } := by
  cases o with
  | none =>
      show List.foldl decodeSnapshotStep σ [] = _
      simp only [List.foldl_nil]
      rw [← h0]
  | some m =>
      show List.foldl decodeSnapshotStep σ (encLines "memory" m) = _
      rw [show encLines "memory" m = [('m' :: ':' :: clean_for_encoding m)] by
          simp [encLines, encode, reverseGet, PREFIX_MAP]]
      simp only [List.foldl_cons, List.foldl_nil]
      rw [step_m, parse_clean m h.1]

theorem fold_gpu (σ : Snapshot) (o : Option LC) (h : optOk o) (h0 : σ.gpu = none) :
    List.foldl decodeSnapshotStep σ (optLines "gpu" o) =
      { σ with gpu := o } := by
  cases o with
  | none =>
      show List.foldl decodeSnapshotStep σ [] = _
      simp only [List.foldl_nil]
      rw [← h0]
  | some g =>
      show List.foldl decodeSnapshotStep σ (encLines "gpu" g) = _
      rw [show encLines "gpu" g = [('g' :: ':' :: clean_for_encoding g)] by
          simp [encLines, encode, reverseGet, PREFIX_MAP]]
      simp only [List.foldl_cons, List.foldl_nil]
      rw [step_g, parse_clean g h.1]

theorem fold_disk (σ : Snapshot) (o : Option LC) (h : optOk o) (h0 : σ.disk = none) :
    List.foldl decodeSnapshotStep σ (optLines "disk" o) =
      { σ with disk := o } := by
  cases o with
  | none =>
      show List.foldl decodeSnapshotStep σ [] = _
      simp only [List.foldl_nil]
      rw [← h0]
  | some dk =>
      show List.foldl decodeSnapshotStep σ (encLines "disk" dk) = _
      rw [show encLines "disk" dk = [('d' :: ':' :: clean_for_encoding dk)] by
          simp [encLines, encode, reverseGet, PREFIX_MAP]]
      simp only [List.foldl_cons, List.foldl_nil]
      rw [step_d, parse_clean dk h.1]

/-! ## Round trips of the per-record payload encoders -/

theorem settingsStep_pair (acc : List (LC × LC)) (k v : LC) (h : '=' ∉ k) :
    settingsStep acc (k ++ '=' :: v) = dictInsert k v acc := by
  unfold settingsStep
  rw [splitFirst_append '=' k v h]

theorem settings_fold (l : List (LC × LC)) :
    ∀ acc, (∀ e ∈ l, '=' ∉ e.1) →
      (l.map (fun e => e.1 ++ '=' :: e.2)).foldl settingsStep acc =
        l.foldl (fun acc e => dictInsert e.1 e.2 acc) acc := by
  induction l with
  | nil => intro acc _; rfl
  | cons e rest ih =>
      intro acc h
      simp only [List.map_cons, List.foldl_cons]
      rw [settingsStep_pair acc e.1 e.2 (h e (List.mem_cons_self e rest))]
      exact ih _ (fun q hq => h q (List.mem_cons_of_mem e hq))

theorem settingsOfKV_joinKV (st : List (LC × LC)) (hwf : ∀ e ∈ st, settingWF e)
    (hnd : (st.map Prod.fst).Nodup) : settingsOfKV (joinKV st) = st := by
  cases st with
  | nil => rfl
  | cons e0 rest =>
      unfold settingsOfKV joinKV
      have hmapeq : (e0 :: rest).map (fun e => e.1 ++ ['='] ++ e.2) =
          (e0 :: rest).map (fun e => e.1 ++ '=' :: e.2) := by
        simp
      rw [hmapeq]
      rw [splitAll_intercalate ',' _ (by simp) ?hcomma]
      case hcomma =>
        intro i hi
        simp only [List.mem_map] at hi
        obtain ⟨e, he, hie⟩ := hi
        obtain ⟨-, -, hk, hv, -⟩ := hwf e he
        rw [← hie]
        simp only [List.mem_append, List.mem_cons, not_or]
        exact ⟨hk, by decide, hv⟩
      rw [settings_fold _ [] (fun e he => (hwf e he).2.2.2.2)]
      exact dict_rebuild _ hnd

theorem decode_config_rec_enc (c : ConfigFile) (h : cfgWF c) :
    decode_config_rec (c.path ++ ':' :: joinKV c.settings) = c := by
  obtain ⟨hp, hcp, hsp, hws, hnd⟩ := h
  unfold decode_config_rec
  rw [splitFirst_append ':' c.path _ hcp]
  show ({ path := c.path, settings := settingsOfKV (joinKV c.settings) } : ConfigFile) = c
  rw [settingsOfKV_joinKV c.settings hws hnd]

theorem decode_tweak_rec_enc (comp tw : LC) (h : ':' ∉ comp) :
    decode_tweak_rec (comp ++ ':' :: tw) = { component := comp, tweak := tw } := by
  unfold decode_tweak_rec
  rw [splitFirst_append ':' comp tw h]

theorem decode_runtime_rec_enc (app st : LC) (h : ':' ∉ app) :
    decode_runtime_rec (app ++ ':' :: st) = { application := app, setting := st } := by
  unfold decode_runtime_rec
  rw [splitFirst_append ':' app st h]

theorem fold_packages (ps : List Package) :
    ∀ σ : Snapshot, (∀ p ∈ ps, pkgWF p) →
      List.foldl decodeSnapshotStep σ
        ((ps.map (fun p =>
          if p.name ≠ [] then encLines "package" (p.name ++ ['-'] ++ p.version)
          else [])).flatten) =
        { σ with packages := σ.packages ++ ps } := by
  induction ps with
  | nil =>
      intro σ _
      simp only [List.map_nil, List.flatten_nil, List.foldl_nil, List.append_nil]
  | cons p rest ih =>
      intro σ h
      obtain ⟨hn, hv, hdv, hsn, hsv⟩ := h p (List.mem_cons_self p rest)
      simp only [List.map_cons, List.flatten_cons, if_pos hn]
      rw [show encLines "package" (p.name ++ ['-'] ++ p.version) =
          [('p' :: ':' :: clean_for_encoding (p.name ++ ['-'] ++ p.version))] by
          simp [encLines, encode, reverseGet, PREFIX_MAP]]
      simp only [List.singleton_append, List.foldl_cons]
      rw [step_p]
      have hb : '\\' ∉ (p.name ++ ['-'] ++ p.version) := by
        simp only [List.append_assoc, List.singleton_append, List.mem_append,
                   List.mem_cons, not_or]
        exact ⟨hsn.1, by decide, hsv.1⟩
      rw [parse_clean _ hb]
      rw [show p.name ++ ['-'] ++ p.version = p.name ++ '-' :: p.version by simp]
      rw [decode_package_rec_enc p.name p.version hn hv hdv hsn.2.1]
      rw [ih _ (fun q hq => h q (List.mem_cons_of_mem p hq))]
      simp [List.append_assoc]


theorem joinKV_chars : ∀ (st : List (LC × LC)) (ch : Char), ch ∈ joinKV st →
    ch = ',' ∨ ch = '=' ∨ ∃ e ∈ st, ch ∈ e.1 ∨ ch ∈ e.2 := by
  intro st
  induction st with
  | nil => intro ch h; simp [joinKV, List.intercalate] at h
  | cons e rest ih =>
      intro ch h
      cases rest with
      | nil =>
          simp only [joinKV, List.map_cons, List.map_nil] at h
          rw [show List.intercalate [','] [e.1 ++ ['='] ++ e.2] = e.1 ++ ['='] ++ e.2 by
              simp [List.intercalate, List.intersperse]] at h
          simp only [List.append_assoc, List.singleton_append, List.mem_append,
                     List.mem_cons] at h
          rcases h with h | h | h
          · exact Or.inr (Or.inr ⟨e, by simp, Or.inl h⟩)
          · exact Or.inr (Or.inl h)
          · exact Or.inr (Or.inr ⟨e, by simp, Or.inr h⟩)
      | cons e2 rest2 =>
          rw [joinKV, List.map_cons, List.map_cons, intercalate_cons_cons] at h
          rcases List.mem_append.mp h with h1 | h2
          · rcases List.mem_append.mp h1 with h3 | h4
            · rcases List.mem_append.mp h3 with h5 | h6
              · rcases List.mem_append.mp h5 with h7 | h8
                · exact Or.inr (Or.inr ⟨e, by simp, Or.inl h7⟩)
                · exact Or.inr (Or.inl (by simpa using h8))
              · exact Or.inr (Or.inr ⟨e, by simp, Or.inr h6⟩)
            · exact Or.inl (by simpa using h4)
          · have hrec : ch ∈ joinKV (e2 :: rest2) := by
              rw [joinKV, List.map_cons]
              exact h2
            rcases ih ch hrec with h1 | h1 | ⟨f, hf, h1⟩
            · exact Or.inl h1
            · exact Or.inr (Or.inl h1)
            · exact Or.inr (Or.inr ⟨f, List.mem_cons_of_mem e hf, h1⟩)

theorem fold_configs (cs : List ConfigFile) :
    ∀ σ : Snapshot, (∀ c ∈ cs, cfgWF c) →
      List.foldl decodeSnapshotStep σ
        ((cs.map (fun c =>
          if c.path ≠ [] then encLines "config" (c.path ++ [':'] ++ joinKV c.settings)
          else [])).flatten) =
        { σ with config_files := σ.config_files ++ cs } := by
  induction cs with
  | nil =>
      intro σ _
      simp only [List.map_nil, List.flatten_nil, List.foldl_nil, List.append_nil]
  | cons c rest ih =>
      intro σ h
      obtain ⟨hp, hcp, hsp, hws, hnd⟩ := h c (List.mem_cons_self c rest)
      simp only [List.map_cons, List.flatten_cons, if_pos hp]
      rw [show encLines "config" (c.path ++ [':'] ++ joinKV c.settings) =
          [('c' :: 'f' :: ':' ::
            clean_for_encoding (c.path ++ [':'] ++ joinKV c.settings))] by
          simp [encLines, encode, reverseGet, PREFIX_MAP]]
      simp only [List.singleton_append, List.foldl_cons]
      rw [step_cf]
      have hbkv : '\\' ∉ joinKV c.settings := by
        intro hmem
        rcases joinKV_chars c.settings '\\' hmem with h1 | h1 | ⟨e, he, h1⟩
        · exact absurd h1 (by decide)
        · exact absurd h1 (by decide)
        · obtain ⟨ws1, ws2, -, -, -⟩ := hws e he
          rcases h1 with h1 | h1
          · exact ws1.1 h1
          · exact ws2.1 h1
      have hb : '\\' ∉ (c.path ++ [':'] ++ joinKV c.settings) := by
        simp only [List.append_assoc, List.singleton_append, List.mem_append,
                   List.mem_cons, not_or]
        exact ⟨hsp.1, by decide, hbkv⟩
      rw [parse_clean _ hb]
      rw [show c.path ++ [':'] ++ joinKV c.settings = c.path ++ ':' :: joinKV c.settings by
          simp]
      rw [decode_config_rec_enc c ⟨hp, hcp, hsp, hws, hnd⟩]
      rw [ih _ (fun q hq => h q (List.mem_cons_of_mem c hq))]
      simp [List.append_assoc]

theorem fold_pkcs (pcs : List PackageConfig) :
    ∀ σ : Snapshot, (∀ pc ∈ pcs, pkcWF pc) →
      List.foldl decodeSnapshotStep σ
        ((pcs.map (fun pc =>
          if pc.package ≠ [] ∧ pc.path ≠ [] then
            encLines "package_config"
              (pc.package ++ [':'] ++ pc.config_type ++ [':'] ++ pc.path ++ [':'] ++ pc.content)
          else [])).flatten) =
        { σ with package_configs := σ.package_configs ++ pcs } := by
  induction pcs with
  | nil =>
      intro σ _
      simp only [List.map_nil, List.flatten_nil, List.foldl_nil, List.append_nil]
  | cons pc rest ih =>
      intro σ h
      obtain ⟨hg, hh, hcg, hct, hcp, hsg, hst, hsp, hsc⟩ := h pc (List.mem_cons_self pc rest)
      simp only [List.map_cons, List.flatten_cons, if_pos (And.intro hg hh)]
      rw [show encLines "package_config"
            (pc.package ++ [':'] ++ pc.config_type ++ [':'] ++ pc.path ++ [':'] ++ pc.content) =
          [('p' :: 'k' :: ':' :: clean_for_encoding
            (pc.package ++ [':'] ++ pc.config_type ++ [':'] ++ pc.path ++ [':'] ++ pc.content))] by
          simp [encLines, encode, reverseGet, PREFIX_MAP]]
      simp only [List.singleton_append, List.foldl_cons]
      rw [step_pk]
      have hb : '\\' ∉
          (pc.package ++ [':'] ++ pc.config_type ++ [':'] ++ pc.path ++ [':'] ++ pc.content) := by
        intro hmem
        rcases List.mem_append.mp hmem with h1 | h1
        · rcases List.mem_append.mp h1 with h2 | h2
          · rcases List.mem_append.mp h2 with h3 | h3
            · rcases List.mem_append.mp h3 with h4 | h4
              · rcases List.mem_append.mp h4 with h5 | h5
                · rcases List.mem_append.mp h5 with h6 | h6
                  · exact hsg.1 h6
                  · simp at h6
                · exact hst.1 h5
              · simp at h4
            · exact hsp.1 h3
          · simp at h2
        · exact hsc.1 h1
      rw [parse_clean _ hb]
      rw [show pc.package ++ [':'] ++ pc.config_type ++ [':'] ++ pc.path ++ [':'] ++ pc.content =
          pc.package ++ ':' :: (pc.config_type ++ ':' :: (pc.path ++ ':' :: pc.content)) by
          simp]
      rw [decode_pkc_enc pc.package pc.config_type pc.path pc.content hcg hct hcp]
      rw [ih _ (fun q hq => h q (List.mem_cons_of_mem pc hq))]
      simp [List.append_assoc]

theorem fold_tweaks (tws : List Tweak) :
    ∀ σ : Snapshot, (∀ tw ∈ tws, twWF tw) →
      List.foldl decodeSnapshotStep σ
        ((tws.map (fun tw =>
          if tw.component ≠ [] ∧ tw.tweak ≠ [] then
            encLines "tweak" (tw.component ++ [':'] ++ tw.tweak)
          else [])).flatten) =
        { σ with tweaks := σ.tweaks ++ tws } := by
  induction tws with
  | nil =>
      intro σ _
      simp only [List.map_nil, List.flatten_nil, List.foldl_nil, List.append_nil]
  | cons tw rest ih =>
      intro σ h
      obtain ⟨hcne, htne, hcol, hsc, hst⟩ := h tw (List.mem_cons_self tw rest)
      simp only [List.map_cons, List.flatten_cons, if_pos (And.intro hcne htne)]
      rw [show encLines "tweak" (tw.component ++ [':'] ++ tw.tweak) =
          [('t' :: ':' :: clean_for_encoding (tw.component ++ [':'] ++ tw.tweak))] by
          simp [encLines, encode, reverseGet, PREFIX_MAP]]
      simp only [List.singleton_append, List.foldl_cons]
      rw [step_t]
      have hb : '\\' ∉ (tw.component ++ [':'] ++ tw.tweak) := by
        simp only [List.append_assoc, List.singleton_append, List.mem_append,
                   List.mem_cons, not_or]
        exact ⟨hsc.1, by decide, hst.1⟩
      rw [parse_clean _ hb]
      rw [show tw.component ++ [':'] ++ tw.tweak = tw.component ++ ':' :: tw.tweak by simp]
      rw [decode_tweak_rec_enc tw.component tw.tweak hcol]
      rw [ih _ (fun q hq => h q (List.mem_cons_of_mem tw hq))]
      simp [List.append_assoc]

theorem fold_rts (rcs : List RuntimeConfig) :
    ∀ σ : Snapshot, (∀ rc ∈ rcs, rtWF rc) →
      List.foldl decodeSnapshotStep σ
        ((rcs.map (fun rc =>
          if rc.application ≠ [] ∧ rc.setting ≠ [] then
            encLines "runtime" (rc.application ++ [':'] ++ rc.setting)
          else [])).flatten) =
        { σ with runtime_configs := σ.runtime_configs ++ rcs } := by
  induction rcs with
  | nil =>
      intro σ _
      simp only [List.map_nil, List.flatten_nil, List.foldl_nil, List.append_nil]
  | cons rc rest ih =>
      intro σ h
      obtain ⟨hane, hsne, hcol, hsa, hss⟩ := h rc (List.mem_cons_self rc rest)
      simp only [List.map_cons, List.flatten_cons, if_pos (And.intro hane hsne)]
      rw [show encLines "runtime" (rc.application ++ [':'] ++ rc.setting) =
          [('r' :: ':' :: clean_for_encoding (rc.application ++ [':'] ++ rc.setting))] by
          simp [encLines, encode, reverseGet, PREFIX_MAP]]
      simp only [List.singleton_append, List.foldl_cons]
      rw [step_r]
      have hb : '\\' ∉ (rc.application ++ [':'] ++ rc.setting) := by
        simp only [List.append_assoc, List.singleton_append, List.mem_append,
                   List.mem_cons, not_or]
        exact ⟨hsa.1, by decide, hss.1⟩
      rw [parse_clean _ hb]
      rw [show rc.application ++ [':'] ++ rc.setting = rc.application ++ ':' :: rc.setting by
          simp]
      rw [decode_runtime_rec_enc rc.application rc.setting hcol]
      rw [ih _ (fun q hq => h q (List.mem_cons_of_mem rc hq))]
      simp [List.append_assoc]

/-- Decoding the encoder's output reproduces a well-formed snapshot
exactly. -/
theorem decode_encode_id (S : Snapshot) (h : snapWF S) :
    decode_snapshot (encode_snapshot S) = S := by
  obtain ⟨hver, hfiles, hsys, hsc, hk, hc, hm, hg, hd, hpkg, hcfg, hpkc, htw, hrt⟩ := h
  unfold decode_snapshot encode_snapshot
  simp only [List.foldl_append]
  rw [fold_version]
  rw [fold_system _ _ hsys]
  rw [fold_scope _ _ hsc rfl]
  rw [fold_kernel _ _ hk rfl]
  rw [fold_cpu _ _ hc rfl]
  rw [fold_memory _ _ hm rfl]
  rw [fold_gpu _ _ hg rfl]
  rw [fold_disk _ _ hd rfl]
  rw [fold_packages _ _ hpkg]
  rw [fold_configs _ _ hcfg]
  rw [fold_pkcs _ _ hpkc]
  rw [fold_tweaks _ _ htw]
  rw [fold_rts _ _ hrt]
  rcases S with ⟨st, ps, cs, pcs, tws, rts, ver, sc, k, c, m, g, d, fs⟩
  simp only at hver hfiles
  subst hver
  subst hfiles
  simp [emptySnapshot]

/-! ## Well-formedness is established by decoding well-formed lines -/

theorem splitFirst_none_imp (sep : Char) :
    ∀ l, splitFirst sep l = none → sep ∉ l := by
  intro l
  induction l with
  | nil => intro _; simp
  | cons c rest ih =>
      intro h
      simp only [splitFirst] at h
      by_cases hc : c = sep
      · rw [if_pos hc] at h; simp at h
      · rw [if_neg hc] at h
        cases hr : splitFirst sep rest with
        | none =>
            simp only [List.mem_cons, not_or]
            exact ⟨fun e => hc e.symm, ih hr⟩
        | some p => rw [hr] at h; rcases p with ⟨a, b⟩; simp at h

theorem strOk_sub (x y : LC) (hsub : ∀ c ∈ x, c ∈ y) (h : strOk y) : strOk x :=
  ⟨fun hc => h.1 (hsub _ hc), fun hc => h.2.1 (hsub _ hc), fun hc => h.2.2 (hsub _ hc)⟩

theorem strOk_decode (line : LC) (t : String) (d : LC)
    (h : decode PREFIX_MAP line = some (t, d)) (hs : strOk line) : strOk d := by
  unfold decode at h
  cases hf : PREFIX_MAP.find? (fun e => e.1.isPrefixOf line) with
  | none => rw [hf] at h; simp at h
  | some e =>
      rw [hf] at h
      simp only [Option.some.injEq, Prod.mk.injEq] at h
      obtain ⟨-, h2⟩ := h
      have hdrop : strOk (line.drop e.1.length) :=
        strOk_sub _ _ (fun c hc => List.mem_of_mem_drop hc) hs
      rw [← h2, parse_id _ hdrop.1]
      exact hdrop

theorem pkgWF_decode (d : LC) (hd : d ≠ []) (hs : strOk d) :
    pkgWF (decode_package_rec d) := by
  unfold decode_package_rec
  cases hl : lastDashSplit d with
  | none =>
      show pkgWF { name := d, version := "latest".data }
      have hv1 : ("latest".data : LC) ≠ [] := by decide
      have hv2 : '-' ∉ ("latest".data : LC) := by decide
      have hv3 : strOk ("latest".data : LC) := ⟨by decide, by decide, by decide⟩
      exact ⟨hd, hv1, hv2, hs, hv3⟩
  | some p =>
      rcases p with ⟨n, v⟩
      show pkgWF (if n ≠ [] ∧ v ≠ [] ∧ '\n' ∉ n then { name := n, version := v }
                  else { name := d, version := "latest".data })
      by_cases hcond : n ≠ [] ∧ v ≠ [] ∧ '\n' ∉ n
      · rw [if_pos hcond]
        obtain ⟨hprop, hnd⟩ := lastDashSplit_props d n v hl
        have hnsub : ∀ c ∈ n, c ∈ d := by
          intro c hc; rw [hprop]; exact List.mem_append.mpr (Or.inl hc)
        have hvsub : ∀ c ∈ v, c ∈ d := by
          intro c hc; rw [hprop]
          exact List.mem_append.mpr (Or.inr (List.mem_cons_of_mem '-' hc))
        exact ⟨hcond.1, hcond.2.1, hnd, strOk_sub n d hnsub hs, strOk_sub v d hvsub hs⟩
      · rw [if_neg hcond]
        show pkgWF { name := d, version := "latest".data }
        have hv1 : ("latest".data : LC) ≠ [] := by decide
        have hv2 : '-' ∉ ("latest".data : LC) := by decide
        have hv3 : strOk ("latest".data : LC) := ⟨by decide, by decide, by decide⟩
        exact ⟨hd, hv1, hv2, hs, hv3⟩

theorem settings_fold_WF (items : List LC) :
    ∀ acc, (∀ i ∈ items, ',' ∉ i ∧ strOk i) →
      (∀ e ∈ acc, settingWF e) → ((acc.map Prod.fst).Nodup) →
      (∀ e ∈ items.foldl settingsStep acc, settingWF e) ∧
        ((items.foldl settingsStep acc).map Prod.fst).Nodup := by
  induction items with
  | nil => intro acc _ h1 h2; exact ⟨h1, h2⟩
  | cons i rest ih =>
      intro acc hitems hacc hnd
      obtain ⟨hic, his⟩ := hitems i (List.mem_cons_self i rest)
      simp only [List.foldl_cons]
      have hrest : ∀ j ∈ rest, ',' ∉ j ∧ strOk j :=
        fun j hj => hitems j (List.mem_cons_of_mem i hj)
      cases hsp : splitFirst '=' i with
      | none =>
          rw [show settingsStep acc i = acc by simp [settingsStep, hsp]]
          exact ih acc hrest hacc hnd
      | some p =>
          rcases p with ⟨k, v⟩
          rw [show settingsStep acc i = dictInsert k v acc by simp [settingsStep, hsp]]
          obtain ⟨hprop, hek⟩ := splitFirst_props '=' i k v hsp
          have hksub : ∀ c ∈ k, c ∈ i := by
            intro c hc; rw [hprop]; exact List.mem_append.mpr (Or.inl hc)
          have hvsub : ∀ c ∈ v, c ∈ i := by
            intro c hc; rw [hprop]
            exact List.mem_append.mpr (Or.inr (List.mem_cons_of_mem '=' hc))
          have hwf : settingWF (k, v) := by
            refine ⟨strOk_sub k i hksub his, strOk_sub v i hvsub his, ?_, ?_, hek⟩
            · exact fun hc => hic (hksub ',' hc)
            · exact fun hc => hic (hvsub ',' hc)
          refine ih _ hrest ?_ (dictInsert_keys_nodup k v acc hnd)
          intro e he
          rcases dictInsert_mem k v acc e he with h1 | h1
          · rw [h1]; exact hwf
          · exact hacc e h1

theorem settingsOfKV_WF (kv : LC) (hs : strOk kv) :
    (∀ e ∈ settingsOfKV kv, settingWF e) ∧
      ((settingsOfKV kv).map Prod.fst).Nodup := by
  unfold settingsOfKV
  refine settings_fold_WF (splitAll ',' kv) [] ?_ (by simp) (by simp)
  intro i hi
  obtain ⟨h1, h2⟩ := splitAll_pieces ',' kv i hi
  exact ⟨h1, strOk_sub i kv h2 hs⟩

theorem cfgWF_decode (d : LC) (hs : strOk d)
    (hgood : match splitFirst ':' d with
             | none => d ≠ []
             | some (fp, _) => fp ≠ []) :
    cfgWF (decode_config_rec d) := by
  unfold decode_config_rec
  cases hsp : splitFirst ':' d with
  | none =>
      rw [hsp] at hgood
      exact ⟨hgood, splitFirst_none_imp ':' d hsp, hs, by simp [settingsOfKV, splitAll, settingsStep, splitFirst], by simp [settingsOfKV, splitAll, settingsStep, splitFirst]⟩
  | some p =>
      rcases p with ⟨fp, kv⟩
      rw [hsp] at hgood
      obtain ⟨hprop, hcp⟩ := splitFirst_props ':' d fp kv hsp
      have hfsub : ∀ c ∈ fp, c ∈ d := by
        intro c hc; rw [hprop]; exact List.mem_append.mpr (Or.inl hc)
      have hksub : ∀ c ∈ kv, c ∈ d := by
        intro c hc; rw [hprop]
        exact List.mem_append.mpr (Or.inr (List.mem_cons_of_mem ':' hc))
      obtain ⟨hws, hnd⟩ := settingsOfKV_WF kv (strOk_sub kv d hksub hs)
      exact ⟨hgood, hcp, strOk_sub fp d hfsub hs, hws, hnd⟩

theorem pkcWF_decode (d : LC) (hs : strOk d) (pc : PackageConfig)
    (hdec : decode_package_config_rec d = some pc)
    (hg : pc.package ≠ []) (hh : pc.path ≠ []) : pkcWF pc := by
  obtain ⟨hprop, h1, h2, h3⟩ := decode_pkc_props d pc hdec
  have hsub1 : ∀ c ∈ pc.package, c ∈ d := by
    intro c hc; rw [hprop]; exact List.mem_append.mpr (Or.inl hc)
  have hsub2 : ∀ c ∈ pc.config_type, c ∈ d := by
    intro c hc; rw [hprop]
    exact List.mem_append.mpr (Or.inr (List.mem_cons_of_mem ':'
      (List.mem_append.mpr (Or.inl hc))))
  have hsub3 : ∀ c ∈ pc.path, c ∈ d := by
    intro c hc; rw [hprop]
    exact List.mem_append.mpr (Or.inr (List.mem_cons_of_mem ':'
      (List.mem_append.mpr (Or.inr (List.mem_cons_of_mem ':'
        (List.mem_append.mpr (Or.inl hc)))))))
  have hsub4 : ∀ c ∈ pc.content, c ∈ d := by
    intro c hc; rw [hprop]
    exact List.mem_append.mpr (Or.inr (List.mem_cons_of_mem ':'
      (List.mem_append.mpr (Or.inr (List.mem_cons_of_mem ':'
        (List.mem_append.mpr (Or.inr (List.mem_cons_of_mem ':' hc))))))))
  exact ⟨hg, hh, h1, h2, h3, strOk_sub _ d hsub1 hs, strOk_sub _ d hsub2 hs,
         strOk_sub _ d hsub3 hs, strOk_sub _ d hsub4 hs⟩

theorem twWF_decode (d : LC) (hs : strOk d) (a b : LC)
    (hsp : splitFirst ':' d = some (a, b)) (ha : a ≠ []) (hb : b ≠ []) :
    twWF (decode_tweak_rec d) := by
  unfold decode_tweak_rec
  rw [hsp]
  obtain ⟨hprop, hcol⟩ := splitFirst_props ':' d a b hsp
  have hasub : ∀ c ∈ a, c ∈ d := by
    intro c hc; rw [hprop]; exact List.mem_append.mpr (Or.inl hc)
  have hbsub : ∀ c ∈ b, c ∈ d := by
    intro c hc; rw [hprop]
    exact List.mem_append.mpr (Or.inr (List.mem_cons_of_mem ':' hc))
  exact ⟨ha, hb, hcol, strOk_sub a d hasub hs, strOk_sub b d hbsub hs⟩

theorem rtWF_decode (d : LC) (hs : strOk d) (a b : LC)
    (hsp : splitFirst ':' d = some (a, b)) (ha : a ≠ []) (hb : b ≠ []) :
    rtWF (decode_runtime_rec d) := by
  unfold decode_runtime_rec
  rw [hsp]
  obtain ⟨hprop, hcol⟩ := splitFirst_props ':' d a b hsp
  have hasub : ∀ c ∈ a, c ∈ d := by
    intro c hc; rw [hprop]; exact List.mem_append.mpr (Or.inl hc)
  have hbsub : ∀ c ∈ b, c ∈ d := by
    intro c hc; rw [hprop]
    exact List.mem_append.mpr (Or.inr (List.mem_cons_of_mem ':' hc))
  exact ⟨ha, hb, hcol, strOk_sub a d hasub hs, strOk_sub b d hbsub hs⟩

theorem snapWF_set_version (σ : Snapshot) (h : snapWF σ) :
    snapWF { σ with version := SPEC_VERSION } := by
  obtain ⟨-, h2, h3, h4, h5, h6, h7, h8, h9, h10, h11, h12, h13, h14⟩ := h
  exact ⟨rfl, h2, h3, h4, h5, h6, h7, h8, h9, h10, h11, h12, h13, h14⟩

theorem snapWF_set_system (σ : Snapshot) (st : LC) (h : snapWF σ) (hst : strOk st) :
    snapWF { σ with system_type := st } := by
  obtain ⟨h1, h2, -, h4, h5, h6, h7, h8, h9, h10, h11, h12, h13, h14⟩ := h
  exact ⟨h1, h2, hst, h4, h5, h6, h7, h8, h9, h10, h11, h12, h13, h14⟩

theorem snapWF_set_scope (σ : Snapshot) (x : LC) (h : snapWF σ) (hx : strOk x) :
    snapWF { σ with scope := some x } := by
  obtain ⟨h1, h2, h3, -, h5, h6, h7, h8, h9, h10, h11, h12, h13, h14⟩ := h
  exact ⟨h1, h2, h3, hx, h5, h6, h7, h8, h9, h10, h11, h12, h13, h14⟩

theorem snapWF_set_kernel (σ : Snapshot) (x : LC) (h : snapWF σ) (hx : strOk x) :
    snapWF { σ with kernel := some x } := by
  obtain ⟨h1, h2, h3, h4, -, h6, h7, h8, h9, h10, h11, h12, h13, h14⟩ := h
  exact ⟨h1, h2, h3, h4, hx, h6, h7, h8, h9, h10, h11, h12, h13, h14⟩

theorem snapWF_set_cpu (σ : Snapshot) (x : LC) (h : snapWF σ) (hx : strOk x) :
    snapWF { σ with cpu := some x } := by
  obtain ⟨h1, h2, h3, h4, h5, -, h7, h8, h9, h10, h11, h12, h13, h14⟩ := h
  exact ⟨h1, h2, h3, h4, h5, hx, h7, h8, h9, h10, h11, h12, h13, h14⟩

theorem snapWF_set_memory (σ : Snapshot) (x : LC) (h : snapWF σ) (hx : strOk x) :
    snapWF { σ with memory := some x } := by
  obtain ⟨h1, h2, h3, h4, h5, h6, -, h8, h9, h10, h11, h12, h13, h14⟩ := h
  exact ⟨h1, h2, h3, h4, h5, h6, hx, h8, h9, h10, h11, h12, h13, h14⟩

theorem snapWF_set_gpu (σ : Snapshot) (x : LC) (h : snapWF σ) (hx : strOk x) :
    snapWF { σ with gpu := some x } := by
  obtain ⟨h1, h2, h3, h4, h5, h6, h7, -, h9, h10, h11, h12, h13, h14⟩ := h
  exact ⟨h1, h2, h3, h4, h5, h6, h7, hx, h9, h10, h11, h12, h13, h14⟩

theorem snapWF_set_disk (σ : Snapshot) (x : LC) (h : snapWF σ) (hx : strOk x) :
    snapWF { σ with disk := some x } := by
  obtain ⟨h1, h2, h3, h4, h5, h6, h7, h8, -, h10, h11, h12, h13, h14⟩ := h
  exact ⟨h1, h2, h3, h4, h5, h6, h7, h8, hx, h10, h11, h12, h13, h14⟩

theorem snapWF_add_package (σ : Snapshot) (p : Package) (h : snapWF σ) (hp : pkgWF p) :
    snapWF { σ with packages := σ.packages ++ [p] } := by
  obtain ⟨h1, h2, h3, h4, h5, h6, h7, h8, h9, h10, h11, h12, h13, h14⟩ := h
  refine ⟨h1, h2, h3, h4, h5, h6, h7, h8, h9, ?_, h11, h12, h13, h14⟩
  intro q hq
  rcases List.mem_append.mp hq with hq | hq
  · exact h10 q hq
  · rw [List.mem_singleton.mp hq]; exact hp

theorem snapWF_add_config (σ : Snapshot) (c : ConfigFile) (h : snapWF σ) (hc : cfgWF c) :
    snapWF { σ with config_files := σ.config_files ++ [c] } := by
  obtain ⟨h1, h2, h3, h4, h5, h6, h7, h8, h9, h10, h11, h12, h13, h14⟩ := h
  refine ⟨h1, h2, h3, h4, h5, h6, h7, h8, h9, h10, ?_, h12, h13, h14⟩
  intro q hq
  rcases List.mem_append.mp hq with hq | hq
  · exact h11 q hq
  · rw [List.mem_singleton.mp hq]; exact hc

theorem snapWF_add_pkc (σ : Snapshot) (pc : PackageConfig) (h : snapWF σ) (hc : pkcWF pc) :
    snapWF { σ with package_configs := σ.package_configs ++ [pc] } := by
  obtain ⟨h1, h2, h3, h4, h5, h6, h7, h8, h9, h10, h11, h12, h13, h14⟩ := h
  refine ⟨h1, h2, h3, h4, h5, h6, h7, h8, h9, h10, h11, ?_, h13, h14⟩
  intro q hq
  rcases List.mem_append.mp hq with hq | hq
  · exact h12 q hq
  · rw [List.mem_singleton.mp hq]; exact hc

theorem snapWF_add_tweak (σ : Snapshot) (tw : Tweak) (h : snapWF σ) (hc : twWF tw) :
    snapWF { σ with tweaks := σ.tweaks ++ [tw] } := by
  obtain ⟨h1, h2, h3, h4, h5, h6, h7, h8, h9, h10, h11, h12, h13, h14⟩ := h
  refine ⟨h1, h2, h3, h4, h5, h6, h7, h8, h9, h10, h11, h12, ?_, h14⟩
  intro q hq
  rcases List.mem_append.mp hq with hq | hq
  · exact h13 q hq
  · rw [List.mem_singleton.mp hq]; exact hc

theorem snapWF_add_rt (σ : Snapshot) (rc : RuntimeConfig) (h : snapWF σ) (hc : rtWF rc) :
    snapWF { σ with runtime_configs := σ.runtime_configs ++ [rc] } := by
  obtain ⟨h1, h2, h3, h4, h5, h6, h7, h8, h9, h10, h11, h12, h13, h14⟩ := h
  refine ⟨h1, h2, h3, h4, h5, h6, h7, h8, h9, h10, h11, h12, h13, ?_⟩
  intro q hq
  rcases List.mem_append.mp hq with hq | hq
  · exact h14 q hq
  · rw [List.mem_singleton.mp hq]; exact hc

theorem step_preserves_WF (σ : Snapshot) (l : LC) (hσ : snapWF σ)
    (hl : goodLine l = true) : snapWF (decodeSnapshotStep σ l) := by
  simp only [goodLine, Bool.and_eq_true, decide_eq_true_eq] at hl
  obtain ⟨⟨⟨hbs, hnl⟩, hcr⟩, hmatch⟩ := hl
  have hline : strOk l := ⟨hbs, hnl, hcr⟩
  cases hd : decode PREFIX_MAP l with
  | none => simpa [decodeSnapshotStep, hd] using hσ
  | some td =>
      rcases td with ⟨t, d⟩
      simp only [hd] at hmatch
      have hstrd : strOk d := strOk_decode l t d hd hline
      simp only [decodeSnapshotStep, hd]
      by_cases h1 : t = "version"
      · subst h1
        rw [if_pos rfl]
        simp [goodPayload] at hmatch
        rw [hmatch]
        exact snapWF_set_version σ hσ
      rw [if_neg h1]
      by_cases h2 : t = "system"
      · subst h2
        rw [if_pos rfl]
        by_cases h2b : ("sys:".data).isPrefixOf d = true
        · rw [if_pos h2b]
          exact snapWF_set_system σ _ hσ
            (strOk_sub _ d (fun c hc => List.mem_of_mem_drop hc) hstrd)
        · rw [if_neg h2b]
          exact hσ
      rw [if_neg h2]
      by_cases h3 : t = "scope"
      · subst h3
        rw [if_pos rfl]
        exact snapWF_set_scope σ d hσ hstrd
      rw [if_neg h3]
      by_cases h4 : t = "package"
      · subst h4
        rw [if_pos rfl]
        simp [goodPayload] at hmatch
        exact snapWF_add_package σ _ hσ (pkgWF_decode d hmatch hstrd)
      rw [if_neg h4]
      by_cases h5 : t = "kernel"
      · subst h5
        rw [if_pos rfl]
        exact snapWF_set_kernel σ d hσ hstrd
      rw [if_neg h5]
      by_cases h6 : t = "cpu"
      · subst h6
        rw [if_pos rfl]
        exact snapWF_set_cpu σ d hσ hstrd
      rw [if_neg h6]
      by_cases h7 : t = "memory"
      · subst h7
        rw [if_pos rfl]
        exact snapWF_set_memory σ d hσ hstrd
      rw [if_neg h7]
      by_cases h8 : t = "gpu"
      · subst h8
        rw [if_pos rfl]
        exact snapWF_set_gpu σ d hσ hstrd
      rw [if_neg h8]
      by_cases h9 : t = "disk"
      · subst h9
        rw [if_pos rfl]
        exact snapWF_set_disk σ d hσ hstrd
      rw [if_neg h9]
      by_cases h10 : t = "config"
      · subst h10
        rw [if_pos rfl]
        simp only [goodPayload] at hmatch
        have hgood : (match splitFirst ':' d with
                      | none => d ≠ []
                      | some (fp, _) => fp ≠ []) := by
          cases hsp : splitFirst ':' d with
          | none =>
              rw [hsp] at hmatch
              simp at hmatch
              exact hmatch
          | some p =>
              rcases p with ⟨fp, kv⟩
              rw [hsp] at hmatch
              simp at hmatch
              exact hmatch
        exact snapWF_add_config σ _ hσ (cfgWF_decode d hstrd hgood)
      rw [if_neg h10]
      by_cases h11 : t = "package_config"
      · subst h11
        rw [if_pos rfl]
        simp only [goodPayload] at hmatch
        cases hc : decode_package_config_rec d with
        | none => exact hσ
        | some pc =>
            rw [hc] at hmatch
            simp at hmatch
            exact snapWF_add_pkc σ pc hσ (pkcWF_decode d hstrd pc hc hmatch.1 hmatch.2)
      rw [if_neg h11]
      by_cases h12 : t = "tweak"
      · subst h12
        rw [if_pos rfl]
        simp only [goodPayload] at hmatch
        cases hsp : splitFirst ':' d with
        | none => rw [hsp] at hmatch; simp at hmatch
        | some p =>
            rcases p with ⟨a, b⟩
            rw [hsp] at hmatch
            simp at hmatch
            have hdec : decode_tweak_rec d = { component := a, tweak := b } := by
              unfold decode_tweak_rec
              rw [hsp]
            exact snapWF_add_tweak σ _ hσ
              (twWF_decode d hstrd a b hsp hmatch.1 hmatch.2)
      rw [if_neg h12]
      by_cases h13 : t = "runtime"
      · subst h13
        rw [if_pos rfl]
        simp only [goodPayload] at hmatch
        cases hsp : splitFirst ':' d with
        | none => rw [hsp] at hmatch; simp at hmatch
        | some p =>
            rcases p with ⟨a, b⟩
            rw [hsp] at hmatch
            simp at hmatch
            exact snapWF_add_rt σ _ hσ
              (rtWF_decode d hstrd a b hsp hmatch.1 hmatch.2)
      rw [if_neg h13]
      by_cases h14 : t = "file"
      · subst h14
        simp [goodPayload] at hmatch
      rw [if_neg h14]
      exact hσ

theorem decode_snapshot_WF_aux :
    ∀ (lines : List LC) (σ : Snapshot), snapWF σ →
      (∀ l ∈ lines, goodLine l = true) →
      snapWF (lines.foldl decodeSnapshotStep σ) := by
  intro lines
  induction lines with
  | nil => intro σ h _; exact h
  | cons l ls ih =>
      intro σ h hg
      simp only [List.foldl_cons]
      exact ih _ (step_preserves_WF σ l h (hg l (List.mem_cons_self l ls)))
        (fun q hq => hg q (List.mem_cons_of_mem l hq))

theorem emptySnapshot_WF : snapWF emptySnapshot := by
  refine ⟨rfl, rfl, ⟨by decide, by decide, by decide⟩, trivial, trivial, trivial,
    trivial, trivial, trivial, ?_, ?_, ?_, ?_, ?_⟩ <;> intro x hx <;> cases hx

theorem decode_snapshot_WF (lines : List LC)
    (h : ∀ l ∈ lines, goodLine l = true) : snapWF (decode_snapshot lines) :=
  decode_snapshot_WF_aux lines emptySnapshot emptySnapshot_WF h

/-- C3 counterexample: on a well-formed snapshot file whose version record is
2.0.0, decode gives version 2.0.0, but re-encoding emits the codec's own
compiled-in version 1.0.0, so decoding again differs: idempotence fails. -/
theorem c3_version_not_idempotent :
    (decode_snapshot c3BadLines).version = "2.0.0".data ∧
    (decode_snapshot (encode_snapshot (decode_snapshot c3BadLines))).version =
      "1.0.0".data ∧
    decode_snapshot (encode_snapshot (decode_snapshot c3BadLines)) ≠
      decode_snapshot c3BadLines := by
  refine ⟨by decide, by decide, by decide⟩

/-- C3 (amended): decode-encode-decode equals decode on well-formed lines in
the goodLine class: every line free of literal backslash, newline and
carriage-return characters, decoding to no version record other than the
codec's own 1.0.0 and to no file record, with the encoder's skip conditions
vacuous (nonempty package payload, nonempty config path, tweak and runtime
records with both fields nonempty, package_config records with nonempty
package and path).  Lines that fail to decode, or decode to record types
without a decode_snapshot branch, are allowed. -/
theorem c3_idempotence (lines : List LC)
    (h : ∀ l ∈ lines, goodLine l = true) :
    decode_snapshot (encode_snapshot (decode_snapshot lines)) =
      decode_snapshot lines :=
  decode_encode_id (decode_snapshot lines) (decode_snapshot_WF lines h)

/-- C3 witness: the amended idempotence at a representative file exercising
every re-encodable record family plus an ignored error record and an
undecodable line. -/
theorem c3_idempotence_witness :
    (∀ l ∈ c3GoodLines, goodLine l = true) ∧
    decode_snapshot (encode_snapshot (decode_snapshot c3GoodLines)) =
      decode_snapshot c3GoodLines :=
  ⟨by decide, c3_idempotence c3GoodLines (by decide)⟩
